import Mathlib

/-!
Verification of the indicator computation engine of the Time-Series-Analysis
repository (`src/technical_indicators.py`).

The engine operates on pandas float64 series.  We embed float values as
`PFloat`: an exact rational carrier extended by the IEEE-754 special values
`+inf`, `-inf` and `NaN` (rounding is not modelled; all arithmetic on finite
values is exact).  Pandas stores an undefined entry of a float column as NaN,
so "undefined" in the specification corresponds to `PFloat.nan` here.
Division follows IEEE-754 semantics: `x / 0 = ±inf` for `x ≠ 0`, `0 / 0 = NaN`,
and NaN propagates through every operation.  These special cases are exactly
what the RSI and stochastic-oscillator code relies on, since the Python source
performs plain series division with no guarding branch.

Values produced by `numpy.sqrt` (the Bollinger band standard deviation) are
irrational in general and are modelled in `ℝ`; every other computation stays
in the executable rational fragment.
-/

/-- Model of a pandas float64 value: exact rational carrier plus the IEEE
special values.  `nan` doubles as the missing-value marker of a float column. -/
inductive PFloat : Type where
  | nan : PFloat
  | pinf : PFloat
  | ninf : PFloat
  | num : ℚ → PFloat
deriving DecidableEq, Repr

namespace PFloat

/-- IEEE negation. -/
def neg : PFloat → PFloat
  | nan => nan
  | pinf => ninf
  | ninf => pinf
  | num a => num (-a)

/-- IEEE addition (`inf + (-inf) = NaN`; NaN propagates). -/
def add : PFloat → PFloat → PFloat
  | nan, _ => nan
  | _, nan => nan
  | pinf, ninf => nan
  | ninf, pinf => nan
  | pinf, _ => pinf
  | _, pinf => pinf
  | ninf, _ => ninf
  | _, ninf => ninf
  | num a, num b => num (a + b)

/-- IEEE subtraction. -/
def sub (a b : PFloat) : PFloat := add a (neg b)

/-- IEEE multiplication (`inf * 0 = NaN`; NaN propagates). -/
def mul : PFloat → PFloat → PFloat
  | nan, _ => nan
  | _, nan => nan
  | pinf, pinf => pinf
  | pinf, ninf => ninf
  | ninf, pinf => ninf
  | ninf, ninf => pinf
  | pinf, num b => if 0 < b then pinf else if b < 0 then ninf else nan
  | num a, pinf => if 0 < a then pinf else if a < 0 then ninf else nan
  | ninf, num b => if 0 < b then ninf else if b < 0 then pinf else nan
  | num a, ninf => if 0 < a then ninf else if a < 0 then pinf else nan
  | num a, num b => num (a * b)

/-- IEEE division: `x / 0 = ±inf` for `x ≠ 0`, `0 / 0 = NaN`, `inf / inf = NaN`,
finite over infinite is `0`; NaN propagates.  (The single rational zero plays
the role of IEEE `+0`.) -/
def div : PFloat → PFloat → PFloat
  | nan, _ => nan
  | _, nan => nan
  | pinf, pinf => nan
  | pinf, ninf => nan
  | ninf, pinf => nan
  | ninf, ninf => nan
  | pinf, num b => if 0 ≤ b then pinf else ninf
  | ninf, num b => if 0 ≤ b then ninf else pinf
  | num _, pinf => num 0
  | num _, ninf => num 0
  | num a, num b =>
    if b = 0 then (if 0 < a then pinf else if a < 0 then ninf else nan)
    else num (a / b)

/-- IEEE strict comparison; every comparison with NaN is `false`. -/
def lt : PFloat → PFloat → Bool
  | nan, _ => false
  | _, nan => false
  | ninf, ninf => false
  | ninf, _ => true
  | _, ninf => false
  | pinf, _ => false
  | _, pinf => true
  | num a, num b => a < b

/-- Is this value NaN?  (Pandas `count`/`min_periods` logic skips NaN entries.) -/
def isNan : PFloat → Bool
  | nan => true
  | _ => false

/-- Binary minimum as computed by a fold over non-NaN values. -/
def pmin (a b : PFloat) : PFloat := if lt b a then b else a

/-- Binary maximum as computed by a fold over non-NaN values. -/
def pmax (a b : PFloat) : PFloat := if lt a b then b else a

@[simp] theorem add_num (a b : ℚ) : add (num a) (num b) = num (a + b) := rfl

@[simp] theorem neg_num (a : ℚ) : neg (num a) = num (-a) := rfl

@[simp] theorem sub_num (a b : ℚ) : sub (num a) (num b) = num (a - b) := by
  simp [sub, add, neg, sub_eq_add_neg]

@[simp] theorem mul_num (a b : ℚ) : mul (num a) (num b) = num (a * b) := rfl

@[simp] theorem isNan_num (a : ℚ) : isNan (num a) = false := rfl

@[simp] theorem isNan_nan : isNan nan = true := rfl

@[simp] theorem lt_num (a b : ℚ) : lt (num a) (num b) = decide (a < b) := rfl

theorem div_num_of_ne (a b : ℚ) (hb : b ≠ 0) : div (num a) (num b) = num (a / b) := by
  simp [div, hb]

theorem div_num_zero_pos (a : ℚ) (ha : 0 < a) : div (num a) (num 0) = pinf := by
  simp [div, ha]

@[simp] theorem add_nan (a : PFloat) : add a nan = nan := by cases a <;> rfl

@[simp] theorem nan_add (a : PFloat) : add nan a = nan := by cases a <;> rfl

@[simp] theorem mul_nan (a : PFloat) : mul a nan = nan := by cases a <;> rfl

@[simp] theorem nan_mul (a : PFloat) : mul nan a = nan := by cases a <;> rfl

@[simp] theorem sub_nan (a : PFloat) : sub a nan = nan := by cases a <;> rfl

@[simp] theorem nan_sub (a : PFloat) : sub nan a = nan := by cases a <;> rfl

@[simp] theorem div_nan (a : PFloat) : div a nan = nan := by cases a <;> rfl

@[simp] theorem nan_div (a : PFloat) : div nan a = nan := by cases a <;> rfl

@[simp] theorem num_add_pinf (a : ℚ) : add (num a) pinf = pinf := rfl

@[simp] theorem num_div_pinf (a : ℚ) : div (num a) pinf = num 0 := rfl

end PFloat

open PFloat

/-- A missing-capable rational value rendered as a pandas float
(`None`/gap becomes NaN). -/
def toPF : Option ℚ → PFloat
  | none => PFloat.nan
  | some q => PFloat.num q

/-- The trailing window of `w` entries ending at row `i` (rows `i+1-w .. i`),
the window a pandas `rolling(window=w)` statistic aggregates at row `i`. -/
def windowSlice (xs : List α) (w i : Nat) : List α :=
  (xs.drop (i + 1 - w)).take w

/-- Left-fold sum of pandas float values. -/
def sumF (xs : List PFloat) : PFloat := xs.foldl PFloat.add (PFloat.num 0)

/-- Fold minimum of a nonempty float list (empty list yields NaN). -/
def foldMinF : List PFloat → PFloat
  | [] => PFloat.nan
  | x :: xs => xs.foldl PFloat.pmin x

/-- Fold maximum of a nonempty float list (empty list yields NaN). -/
def foldMaxF : List PFloat → PFloat
  | [] => PFloat.nan
  | x :: xs => xs.foldl PFloat.pmax x

/-- `series.rolling(window=w).mean()` at row `i`: with the pandas default
`min_periods = w`, the result is NaN while the window is not yet full or when
any entry of the full window is NaN, and the arithmetic mean of the window
otherwise.  (Pandas rejects `window = 0`; we render that degenerate call NaN.) -/
def rollingMeanF (xs : List PFloat) (w i : Nat) : PFloat :=
  if w = 0 ∨ i + 1 < w ∨ xs.length ≤ i then PFloat.nan
  else if (windowSlice xs w i).any PFloat.isNan then PFloat.nan
  else PFloat.div (sumF (windowSlice xs w i)) (PFloat.num w)

/-- `series.rolling(window=w).min()` at row `i` (pandas default `min_periods`). -/
def rollingMinF (xs : List PFloat) (w i : Nat) : PFloat :=
  if w = 0 ∨ i + 1 < w ∨ xs.length ≤ i then PFloat.nan
  else if (windowSlice xs w i).any PFloat.isNan then PFloat.nan
  else foldMinF (windowSlice xs w i)

/-- `series.rolling(window=w).max()` at row `i` (pandas default `min_periods`). -/
def rollingMaxF (xs : List PFloat) (w i : Nat) : PFloat :=
  if w = 0 ∨ i + 1 < w ∨ xs.length ≤ i then PFloat.nan
  else if (windowSlice xs w i).any PFloat.isNan then PFloat.nan
  else foldMaxF (windowSlice xs w i)

/-- Recover the rational entries of an all-finite float window. -/
def finiteVals? : List PFloat → Option (List ℚ)
  | [] => some []
  | PFloat.num q :: xs => (finiteVals? xs).map (fun l => q :: l)
  | _ :: _ => none

/-- Sample variance of a rational window with divisor `w - 1`
(`ddof = 1`, the pandas `rolling.std` default). -/
def sampleVar (l : List ℚ) (w : Nat) : ℚ :=
  (l.map (fun x => (x - l.sum / w) ^ 2)).sum / (w - 1)

/-- The square of `series.rolling(window=w).std()` at row `i`: NaN while the
window is not full, when the window holds a non-finite entry, or when `w < 2`
(with one observation and `ddof = 1` pandas yields NaN); otherwise the sample
variance of the window.  The standard deviation itself is its real square
root, taken where the Bollinger bands are formed. -/
def rollingVarF (xs : List PFloat) (w i : Nat) : PFloat :=
  if w < 2 ∨ i + 1 < w ∨ xs.length ≤ i then PFloat.nan
  else
    match finiteVals? (windowSlice xs w i) with
    | some l => PFloat.num (sampleVar l w)
    | none => PFloat.nan

/-! ## The indicator computations of `technical_indicators.py`, series level -/

/-- `Series.diff()`: first entry NaN, then successive differences. -/
def diffF : List PFloat → List PFloat
  | [] => []
  | x :: rest => PFloat.nan :: List.zipWith PFloat.sub rest (x :: rest)

/-- `delta.where(delta > 0, 0)`: keep entries where the condition holds,
replace the rest (including NaN, which compares `false`) by `0`. -/
def whereGtZero (xs : List PFloat) : List PFloat :=
  xs.map (fun v => if PFloat.lt (PFloat.num 0) v then v else PFloat.num 0)

/-- `-delta.where(delta < 0, 0)`: keep entries where the condition holds,
replace the rest (including NaN) by `0`, then negate the series. -/
def negWhereLtZero (xs : List PFloat) : List PFloat :=
  xs.map (fun v => PFloat.neg (if PFloat.lt v (PFloat.num 0) then v else PFloat.num 0))

/-- The `gain` series of `calculate_rsi`. -/
def gainsF (close : List PFloat) : List PFloat := whereGtZero (diffF close)

/-- The `loss` series of `calculate_rsi`. -/
def lossesF (close : List PFloat) : List PFloat := negWhereLtZero (diffF close)

/-- `calculate_rsi` at row `i`:
`rs = gain.rolling(w).mean() / loss.rolling(w).mean()` and
`RSI = 100 - 100 / (1 + rs)`, with plain (IEEE) series division — the source
has no special-case branch for a zero average loss. -/
def rsiAt (close : List PFloat) (w i : Nat) : PFloat :=
  PFloat.sub (PFloat.num 100)
    (PFloat.div (PFloat.num 100)
      (PFloat.add (PFloat.num 1)
        (PFloat.div (rollingMeanF (gainsF close) w i)
          (rollingMeanF (lossesF close) w i))))

/-- The full `RSI` column written by `calculate_rsi`. -/
def rsiSeries (close : List PFloat) (w : Nat) : List PFloat :=
  (List.range close.length).map (rsiAt close w)

/-- The `SMA_{w}` column written by `calculate_sma`:
`Close.rolling(window=w).mean()`. -/
def smaSeries (close : List PFloat) (w : Nat) : List PFloat :=
  (List.range close.length).map (rollingMeanF close w)

/-- The tail recurrence of `ewm(span=w, adjust=False).mean()`:
each output is `alpha * x + (1 - alpha) * previous`. -/
def emaFromF (a : ℚ) (prev : PFloat) : List PFloat → List PFloat
  | [] => []
  | x :: rest =>
    let y := PFloat.add (PFloat.mul (PFloat.num a) x)
      (PFloat.mul (PFloat.num (1 - a)) prev)
    y :: emaFromF a y rest

/-- `Close.ewm(span=w, adjust=False).mean()`: seeded at the first entry, then
the exponential recurrence with `alpha = 2 / (w + 1)`. -/
def ewmMeanF (w : Nat) : List PFloat → List PFloat
  | [] => []
  | x :: rest => x :: emaFromF (2 / ((w : ℚ) + 1)) x rest

/-- The `EMA_{w}` column written by `calculate_ema`. -/
def emaSeries (close : List PFloat) (w : Nat) : List PFloat := ewmMeanF w close

/-- The `MACD` column written by `calculate_macd`:
short EMA minus long EMA of `Close`. -/
def macdSeries (close : List PFloat) (s l : Nat) : List PFloat :=
  List.zipWith PFloat.sub (ewmMeanF s close) (ewmMeanF l close)

/-- The `MACD_Signal` column written by `calculate_macd`: the same exponential
recurrence applied to the freshly written `MACD` column. -/
def macdSignalSeries (close : List PFloat) (s l g : Nat) : List PFloat :=
  ewmMeanF g (macdSeries close s l)

/-- `calculate_stochastic_oscillator` `%K` at row `i`:
`((Close - Low.rolling(k).min()) / (High.rolling(k).max() - Low.rolling(k).min())) * 100`
with plain (IEEE) series division. -/
def pctKAt (high low close : List PFloat) (k i : Nat) : PFloat :=
  PFloat.mul
    (PFloat.div
      (PFloat.sub (close.getD i PFloat.nan) (rollingMinF low k i))
      (PFloat.sub (rollingMaxF high k i) (rollingMinF low k i)))
    (PFloat.num 100)

/-- The `%K` column written by `calculate_stochastic_oscillator`. -/
def pctKSeries (high low close : List PFloat) (k : Nat) : List PFloat :=
  (List.range close.length).map (pctKAt high low close k)

/-- The `%D` column: `%K.rolling(window=d).mean()`. -/
def pctDSeries (kcol : List PFloat) (d : Nat) : List PFloat :=
  (List.range kcol.length).map (rollingMeanF kcol d)

/-- `calculate_bollinger_bands` upper band at row `i`:
`Close.rolling(w).mean() + num_std * Close.rolling(w).std()`.  The standard
deviation is the real square root of the sample variance; rows where the mean
or the deviation is not a finite number are undefined. -/
noncomputable def bollUpperAt (close : List PFloat) (w : Nat) (k : ℚ) (i : Nat) : Option ℝ :=
  match rollingMeanF close w i, rollingVarF close w i with
  | PFloat.num m, PFloat.num v => some ((m : ℝ) + (k : ℝ) * Real.sqrt (v : ℝ))
  | _, _ => none

/-- `calculate_bollinger_bands` lower band at row `i`:
`Close.rolling(w).mean() - num_std * Close.rolling(w).std()`. -/
noncomputable def bollLowerAt (close : List PFloat) (w : Nat) (k : ℚ) (i : Nat) : Option ℝ :=
  match rollingMeanF close w i, rollingVarF close w i with
  | PFloat.num m, PFloat.num v => some ((m : ℝ) - (k : ℝ) * Real.sqrt (v : ℝ))
  | _, _ => none

/-- The `Bollinger_Upper` column. -/
noncomputable def bollUpperSeries (close : List PFloat) (w : Nat) (k : ℚ) : List (Option ℝ) :=
  (List.range close.length).map (bollUpperAt close w k)

/-- The `Bollinger_Lower` column. -/
noncomputable def bollLowerSeries (close : List PFloat) (w : Nat) (k : ℚ) : List (Option ℝ) :=
  (List.range close.length).map (bollLowerAt close w k)

/-! ## The table model: `self.data` and the six indicator methods -/

/-- Column names of the DataFrame.  The Python source names columns by string;
distinct constructors correspond to the pairwise-distinct literals
`"Open" "High" "Low" "Close" "Volume" "RSI" "%K" "%D" "MACD" "MACD_Signal"
"Bollinger_Upper" "Bollinger_Lower"`, and the parameterised constructors to
the f-strings `f"SMA_{w}"` / `f"EMA_{w}"`, which coincide exactly when the
windows coincide. -/
inductive ColName : Type where
  | copen : ColName
  | chigh : ColName
  | clow : ColName
  | cclose : ColName
  | cvolume : ColName
  | csma : Nat → ColName
  | cema : Nat → ColName
  | crsi : ColName
  | ckpct : ColName
  | cdpct : ColName
  | cmacd : ColName
  | cmacdSig : ColName
  | cbollUp : ColName
  | cbollLo : ColName
deriving DecidableEq, Repr

/-- A stored column.  Ordinary float columns carry `PFloat` entries; the two
Bollinger band columns, whose values involve a real square root, are stored
with their defined entries as real numbers. -/
inductive Col : Type where
  | fs : List PFloat → Col
  | rs : List (Option ℝ) → Col

/-- The float entries of a column, as read by an indicator computation.
No indicator ever reads a Bollinger band column, so the `rs` arm is dead
code kept total. -/
def Col.toF : Col → List PFloat
  | Col.fs l => l
  | Col.rs _ => []

/-- The `self.data` DataFrame: a date index (dates as abstract ordered
values) and named columns in insertion order. -/
structure DataFrame : Type where
  index : List ℚ
  cols : List (ColName × Col)

/-- Column lookup, `self.data[name]` read access. -/
def dfGet (df : DataFrame) (c : ColName) : Option Col :=
  (df.cols.find? (fun p => p.1 = c)).map Prod.snd

/-- Write a column into the column list: overwrite in place when the name
exists, append at the end otherwise — pandas `df[name] = series` semantics. -/
def setCol : List (ColName × Col) → ColName → Col → List (ColName × Col)
  | [], c, v => [(c, v)]
  | (c', v') :: rest, c, v =>
    if c' = c then (c, v) :: rest else (c', v') :: setCol rest c v

/-- `self.data[name] = series` on the DataFrame. -/
def dfSet (df : DataFrame) (c : ColName) (v : Col) : DataFrame :=
  { df with cols := setCol df.cols c v }

/-- Errors a method call can surface.  Reading an absent column raises the
pandas `KeyError` naming that column.  `inputError` mirrors the
specification's `InputError` kind (a validation failure naming the offending
column); no code path of the source constructs it — it exists so that the
specification's failure contract can be stated and compared. -/
inductive PyErr : Type where
  | keyError : ColName → PyErr
  | inputError : ColName → PyErr
deriving DecidableEq, Repr

/-- `self.data[name]` read access: the stored column or a `KeyError`. -/
def readCol (df : DataFrame) (c : ColName) : Except PyErr Col :=
  match dfGet df c with
  | some v => Except.ok v
  | none => Except.error (PyErr.keyError c)

/-- `calculate_sma(window)`. -/
def calculate_sma (w : Nat) (df : DataFrame) : Except PyErr DataFrame := do
  let close ← readCol df ColName.cclose
  return dfSet df (ColName.csma w) (Col.fs (smaSeries close.toF w))

/-- `calculate_ema(window)`. -/
def calculate_ema (w : Nat) (df : DataFrame) : Except PyErr DataFrame := do
  let close ← readCol df ColName.cclose
  return dfSet df (ColName.cema w) (Col.fs (emaSeries close.toF w))

/-- `calculate_rsi(window)`. -/
def calculate_rsi (w : Nat) (df : DataFrame) : Except PyErr DataFrame := do
  let close ← readCol df ColName.cclose
  return dfSet df ColName.crsi (Col.fs (rsiSeries close.toF w))

/-- `calculate_stochastic_oscillator(k_window, d_window)`: reads `Low`,
`High`, `Close` in source order, writes `%K`, then reads the freshly written
`%K` back to compute `%D`. -/
def calculate_stochastic_oscillator (kw dw : Nat) (df : DataFrame) :
    Except PyErr DataFrame := do
  let low ← readCol df ColName.clow
  let high ← readCol df ColName.chigh
  let close ← readCol df ColName.cclose
  let df1 := dfSet df ColName.ckpct
    (Col.fs (pctKSeries high.toF low.toF close.toF kw))
  let kcol ← readCol df1 ColName.ckpct
  return dfSet df1 ColName.cdpct (Col.fs (pctDSeries kcol.toF dw))

/-- `calculate_macd(short_window, long_window, signal_window)`: writes `MACD`,
then reads it back to compute the signal line. -/
def calculate_macd (s l g : Nat) (df : DataFrame) : Except PyErr DataFrame := do
  let close ← readCol df ColName.cclose
  let df1 := dfSet df ColName.cmacd (Col.fs (macdSeries close.toF s l))
  let mcol ← readCol df1 ColName.cmacd
  return dfSet df1 ColName.cmacdSig (Col.fs (ewmMeanF g mcol.toF))

/-- `calculate_bollinger_bands(window, num_std)`. -/
noncomputable def calculate_bollinger_bands (w : Nat) (k : ℚ) (df : DataFrame) :
    Except PyErr DataFrame := do
  let close ← readCol df ColName.cclose
  let df1 := dfSet df ColName.cbollUp (Col.rs (bollUpperSeries close.toF w k))
  return dfSet df1 ColName.cbollLo (Col.rs (bollLowerSeries close.toF w k))

/-! ## Rational shadows of the float computations

The float pipeline applied to a gap-free rational close series stays inside
the `num` fragment; these shadows make the values explicit. -/

/-- The successive differences of a gap-free close series. -/
def deltasQ : List ℚ → List ℚ
  | [] => []
  | x :: rest => List.zipWith (fun b a => b - a) rest (x :: rest)

/-- Rational shadow of the `gain` series on a gap-free close series: the NaN
that `diff()` places at row 0 is turned into `0` by the `where` mask. -/
def gainsQ : List ℚ → List ℚ
  | [] => []
  | x :: rest => 0 :: (deltasQ (x :: rest)).map (fun d => if 0 < d then d else 0)

/-- Rational shadow of the `loss` series on a gap-free close series. -/
def lossesQ : List ℚ → List ℚ
  | [] => []
  | x :: rest => 0 :: (deltasQ (x :: rest)).map (fun d => -(if d < 0 then d else 0))

/-- Rational shadow of the exponential-recurrence tail. -/
def emaAccQ (a p : ℚ) : List ℚ → List ℚ
  | [] => []
  | x :: rest => (a * x + (1 - a) * p) :: emaAccQ a (a * x + (1 - a) * p) rest

/-- Rational shadow of `ewm(span=w, adjust=False).mean()`. -/
def ewmQ (w : Nat) : List ℚ → List ℚ
  | [] => []
  | x :: rest => x :: emaAccQ (2 / ((w : ℚ) + 1)) x rest

/-- Rational shadow of the MACD line. -/
def macdQ (close : List ℚ) (s l : Nat) : List ℚ :=
  List.zipWith (fun a b => a - b) (ewmQ s close) (ewmQ l close)

/-- Fold minimum of a rational window (`0` on the empty list, which never
arises under a full window). -/
def foldMinQ : List ℚ → ℚ
  | [] => 0
  | x :: xs => xs.foldl min x

/-- Fold maximum of a rational window. -/
def foldMaxQ : List ℚ → ℚ
  | [] => 0
  | x :: xs => xs.foldl max x

/-! ## Bridge lemmas -/

theorem any_isNan_map_num (l : List ℚ) :
    (l.map PFloat.num).any PFloat.isNan = false := by
  induction l with
  | nil => rfl
  | cons x xs ih => simp [List.any_cons, ih]

theorem foldl_add_map_num (l : List ℚ) (q : ℚ) :
    List.foldl PFloat.add (PFloat.num q) (l.map PFloat.num) = PFloat.num (q + l.sum) := by
  induction l generalizing q with
  | nil => simp
  | cons x xs ih => simp [List.foldl_cons, ih, add_assoc]

theorem sumF_map_num (l : List ℚ) : sumF (l.map PFloat.num) = PFloat.num l.sum := by
  simp [sumF, foldl_add_map_num]

theorem windowSlice_map (f : α → β) (xs : List α) (w i : Nat) :
    windowSlice (xs.map f) w i = (windowSlice xs w i).map f := by
  simp [windowSlice, List.map_take, List.map_drop]

theorem length_windowSlice (xs : List α) (w i : Nat) (h1 : w ≤ i + 1)
    (h2 : i < xs.length) : (windowSlice xs w i).length = w := by
  simp only [windowSlice, List.length_take, List.length_drop]
  omega

theorem getElem_windowSlice (xs : List α) (w i j : Nat) (_h1 : w ≤ i + 1)
    (_h2 : i < xs.length) (hj : j < (windowSlice xs w i).length)
    (hb : i + 1 - w + j < xs.length) :
    (windowSlice xs w i)[j] = xs[i + 1 - w + j] := by
  simp only [windowSlice, List.getElem_take, List.getElem_drop]

theorem mem_windowSlice_iff (xs : List α) (w i : Nat) (h1 : w ≤ i + 1)
    (h2 : i < xs.length) (y : α) :
    y ∈ windowSlice xs w i ↔
      ∃ t, i + 1 - w ≤ t ∧ t ≤ i ∧ ∃ ht : t < xs.length, xs[t] = y := by
  constructor
  · intro hy
    rcases List.getElem_of_mem hy with ⟨j, hj, hval⟩
    have hj2 : j < w := by
      rw [length_windowSlice xs w i h1 h2] at hj
      exact hj
    refine ⟨i + 1 - w + j, by omega, by omega, by omega, ?_⟩
    rw [← getElem_windowSlice xs w i j h1 h2 hj (by omega)]
    exact hval
  · rintro ⟨t, ht1, ht2, ht3, hval⟩
    have hj : t - (i + 1 - w) < (windowSlice xs w i).length := by
      rw [length_windowSlice xs w i h1 h2]
      omega
    rw [← hval]
    have hx : xs[t] = (windowSlice xs w i)[t - (i + 1 - w)] := by
      rw [getElem_windowSlice xs w i (t - (i + 1 - w)) h1 h2 hj (by omega)]
      congr 1
      omega
    rw [hx]
    exact List.getElem_mem _

theorem rollingMeanF_short (xs : List PFloat) (w i : Nat) (h : i + 1 < w) :
    rollingMeanF xs w i = PFloat.nan := by
  simp [rollingMeanF, h]

theorem rollingMeanF_map_num (l : List ℚ) (w i : Nat) (hw : w ≠ 0)
    (h1 : w ≤ i + 1) (h2 : i < l.length) :
    rollingMeanF (l.map PFloat.num) w i =
      PFloat.num ((windowSlice l w i).sum / (w : ℚ)) := by
  have hlen : (l.map PFloat.num).length = l.length := List.length_map l _
  rw [rollingMeanF, if_neg (by omega), windowSlice_map, if_neg (by
    simp [any_isNan_map_num])]
  rw [sumF_map_num]
  exact PFloat.div_num_of_ne _ _ (Nat.cast_ne_zero.mpr hw)

theorem pmin_num (a b : ℚ) :
    PFloat.pmin (PFloat.num a) (PFloat.num b) = PFloat.num (min a b) := by
  rcases lt_or_le b a with h | h
  · simp [PFloat.pmin, h, min_eq_right (le_of_lt h)]
  · simp [PFloat.pmin, not_lt.mpr h, min_eq_left h]

theorem pmax_num (a b : ℚ) :
    PFloat.pmax (PFloat.num a) (PFloat.num b) = PFloat.num (max a b) := by
  rcases lt_or_le a b with h | h
  · simp [PFloat.pmax, h, max_eq_right (le_of_lt h)]
  · simp [PFloat.pmax, not_lt.mpr h, max_eq_left h]

theorem foldl_pmin_map_num (l : List ℚ) (q : ℚ) :
    List.foldl PFloat.pmin (PFloat.num q) (l.map PFloat.num) =
      PFloat.num (l.foldl min q) := by
  induction l generalizing q with
  | nil => simp
  | cons x xs ih => simp [List.foldl_cons, pmin_num, ih]

theorem foldl_pmax_map_num (l : List ℚ) (q : ℚ) :
    List.foldl PFloat.pmax (PFloat.num q) (l.map PFloat.num) =
      PFloat.num (l.foldl max q) := by
  induction l generalizing q with
  | nil => simp
  | cons x xs ih => simp [List.foldl_cons, pmax_num, ih]

theorem foldMinF_map_num (l : List ℚ) (hl : l ≠ []) :
    foldMinF (l.map PFloat.num) = PFloat.num (foldMinQ l) := by
  cases l with
  | nil => exact absurd rfl hl
  | cons x xs => simp [foldMinF, foldMinQ, foldl_pmin_map_num]

theorem foldMaxF_map_num (l : List ℚ) (hl : l ≠ []) :
    foldMaxF (l.map PFloat.num) = PFloat.num (foldMaxQ l) := by
  cases l with
  | nil => exact absurd rfl hl
  | cons x xs => simp [foldMaxF, foldMaxQ, foldl_pmax_map_num]

theorem foldl_min_le_init (xs : List ℚ) (q : ℚ) : xs.foldl min q ≤ q := by
  induction xs generalizing q with
  | nil => simp
  | cons x rest ih =>
    calc (x :: rest).foldl min q = rest.foldl min (min q x) := rfl
      _ ≤ min q x := ih _
      _ ≤ q := min_le_left _ _

theorem foldl_min_le (xs : List ℚ) (q : ℚ) :
    ∀ y, y ∈ xs → xs.foldl min q ≤ y := by
  induction xs generalizing q with
  | nil => intro y hy; cases hy
  | cons x rest ih =>
    intro y hy
    rcases List.mem_cons.mp hy with rfl | hy
    · calc (y :: rest).foldl min q = rest.foldl min (min q y) := rfl
        _ ≤ min q y := foldl_min_le_init _ _
        _ ≤ y := min_le_right _ _
    · exact ih _ y hy

theorem init_le_foldl_max (xs : List ℚ) (q : ℚ) : q ≤ xs.foldl max q := by
  induction xs generalizing q with
  | nil => simp
  | cons x rest ih =>
    calc q ≤ max q x := le_max_left _ _
      _ ≤ rest.foldl max (max q x) := ih _

theorem le_foldl_max (xs : List ℚ) (q : ℚ) :
    ∀ y, y ∈ xs → y ≤ xs.foldl max q := by
  induction xs generalizing q with
  | nil => intro y hy; cases hy
  | cons x rest ih =>
    intro y hy
    rcases List.mem_cons.mp hy with rfl | hy
    · calc y ≤ max q y := le_max_right _ _
        _ ≤ rest.foldl max (max q y) := init_le_foldl_max _ _
        _ = (y :: rest).foldl max q := rfl
    · exact ih _ y hy

theorem foldMinQ_le (l : List ℚ) (hl : l ≠ []) : ∀ y ∈ l, foldMinQ l ≤ y := by
  cases l with
  | nil => exact absurd rfl hl
  | cons x xs =>
    intro y hy
    rcases List.mem_cons.mp hy with rfl | hy
    · exact foldl_min_le_init xs y
    · exact foldl_min_le xs x y hy

theorem le_foldMaxQ (l : List ℚ) (hl : l ≠ []) : ∀ y ∈ l, y ≤ foldMaxQ l := by
  cases l with
  | nil => exact absurd rfl hl
  | cons x xs =>
    intro y hy
    rcases List.mem_cons.mp hy with rfl | hy
    · exact init_le_foldl_max xs y
    · exact le_foldl_max xs x y hy

theorem rollingMinF_map_num (l : List ℚ) (w i : Nat) (hw : w ≠ 0)
    (h1 : w ≤ i + 1) (h2 : i < l.length) :
    rollingMinF (l.map PFloat.num) w i = PFloat.num (foldMinQ (windowSlice l w i)) := by
  have hlen : (l.map PFloat.num).length = l.length := List.length_map l _
  have hne : windowSlice l w i ≠ [] := by
    intro h
    have := length_windowSlice l w i h1 h2
    rw [h] at this
    simp at this
    omega
  rw [rollingMinF, if_neg (by omega), windowSlice_map, if_neg (by
    simp [any_isNan_map_num])]
  exact foldMinF_map_num _ hne

theorem rollingMaxF_map_num (l : List ℚ) (w i : Nat) (hw : w ≠ 0)
    (h1 : w ≤ i + 1) (h2 : i < l.length) :
    rollingMaxF (l.map PFloat.num) w i = PFloat.num (foldMaxQ (windowSlice l w i)) := by
  have hlen : (l.map PFloat.num).length = l.length := List.length_map l _
  have hne : windowSlice l w i ≠ [] := by
    intro h
    have := length_windowSlice l w i h1 h2
    rw [h] at this
    simp at this
    omega
  rw [rollingMaxF, if_neg (by omega), windowSlice_map, if_neg (by
    simp [any_isNan_map_num])]
  exact foldMaxF_map_num _ hne

theorem emaFromF_map_num (a p : ℚ) (l : List ℚ) :
    emaFromF a (PFloat.num p) (l.map PFloat.num) = (emaAccQ a p l).map PFloat.num := by
  induction l generalizing p with
  | nil => rfl
  | cons x rest ih => simp [emaFromF, emaAccQ, ih]

theorem ewmMeanF_map_num (w : Nat) (l : List ℚ) :
    ewmMeanF w (l.map PFloat.num) = (ewmQ w l).map PFloat.num := by
  cases l with
  | nil => rfl
  | cons x rest => simp [ewmMeanF, ewmQ, emaFromF_map_num]

theorem length_emaAccQ (a p : ℚ) (l : List ℚ) : (emaAccQ a p l).length = l.length := by
  induction l generalizing p with
  | nil => rfl
  | cons x rest ih => simp [emaAccQ, ih]

theorem length_ewmQ (w : Nat) (l : List ℚ) : (ewmQ w l).length = l.length := by
  cases l with
  | nil => rfl
  | cons x rest => simp [ewmQ, length_emaAccQ]

theorem emaAccQ_getElem_zero (a p : ℚ) (l : List ℚ) (h : 0 < l.length)
    (hb : 0 < (emaAccQ a p l).length) :
    (emaAccQ a p l)[0] = a * l[0] + (1 - a) * p := by
  cases l with
  | nil => simp at h
  | cons x rest => rfl

theorem emaAccQ_getElem_succ (a p : ℚ) (l : List ℚ) (t : Nat)
    (h : t + 1 < l.length) (hb1 : t + 1 < (emaAccQ a p l).length)
    (hb2 : t < (emaAccQ a p l).length) :
    (emaAccQ a p l)[t + 1] = a * l[t + 1] + (1 - a) * (emaAccQ a p l)[t] := by
  induction l generalizing p t with
  | nil => simp at h
  | cons x rest ih =>
    cases t with
    | zero =>
      cases rest with
      | nil => simp at h
      | cons z rest2 => rfl
    | succ t2 =>
      have h2 : t2 + 1 < rest.length := by simpa using h
      exact ih _ t2 h2 (by rw [length_emaAccQ]; omega)
        (by rw [length_emaAccQ]; omega)

theorem ewmQ_getElem_zero (w : Nat) (l : List ℚ) (h : 0 < l.length)
    (hb : 0 < (ewmQ w l).length) : (ewmQ w l)[0] = l[0] := by
  cases l with
  | nil => simp at h
  | cons x rest => rfl

theorem ewmQ_getElem_succ (w : Nat) (l : List ℚ) (t : Nat)
    (h : t + 1 < l.length) (hb1 : t + 1 < (ewmQ w l).length)
    (hb2 : t < (ewmQ w l).length) :
    (ewmQ w l)[t + 1] =
      (2 / ((w : ℚ) + 1)) * l[t + 1] + (1 - 2 / ((w : ℚ) + 1)) * (ewmQ w l)[t] := by
  cases l with
  | nil => simp at h
  | cons x rest =>
    cases t with
    | zero =>
      cases rest with
      | nil => simp at h
      | cons z rest2 =>
        have hz := emaAccQ_getElem_zero (2 / ((w : ℚ) + 1)) x (z :: rest2)
          (by simp) (by simp [length_emaAccQ])
        exact hz
    | succ t2 =>
      have h2 : t2 + 1 < rest.length := by simpa using h
      have hs := emaAccQ_getElem_succ (2 / ((w : ℚ) + 1)) x rest t2 h2
        (by rw [length_emaAccQ]; omega) (by rw [length_emaAccQ]; omega)
      exact hs

theorem zipWith_sub_map_num (x : ℚ) (rest : List ℚ) :
    List.zipWith PFloat.sub (rest.map PFloat.num) ((x :: rest).map PFloat.num) =
      (List.zipWith (fun b a => b - a) rest (x :: rest)).map PFloat.num := by
  induction rest generalizing x with
  | nil => rfl
  | cons y ys ih =>
    have h2 := ih y
    simp only [List.map_cons] at h2 ⊢
    simp [List.zipWith_cons_cons, h2]

theorem gainsF_map_num (l : List ℚ) :
    gainsF (l.map PFloat.num) = (gainsQ l).map PFloat.num := by
  cases l with
  | nil => rfl
  | cons x rest =>
    show whereGtZero (diffF ((x :: rest).map PFloat.num)) = _
    have hd : diffF ((x :: rest).map PFloat.num) =
        PFloat.nan :: List.zipWith PFloat.sub (rest.map PFloat.num)
          ((x :: rest).map PFloat.num) := rfl
    have hfun : (fun d : ℚ =>
          if PFloat.lt (PFloat.num 0) (PFloat.num d) then PFloat.num d
          else PFloat.num 0) =
        fun d : ℚ => PFloat.num (if 0 < d then d else 0) := by
      funext d
      by_cases h : 0 < d
      · simp [h]
      · simp [h]
    rw [hd, zipWith_sub_map_num, whereGtZero, List.map_cons, List.map_map]
    show (if PFloat.lt (PFloat.num 0) PFloat.nan then PFloat.nan else PFloat.num 0) ::
        _ = _
    rw [if_neg (by simp [PFloat.lt])]
    show PFloat.num 0 :: List.map _ (deltasQ (x :: rest)) = _
    rw [gainsQ, List.map_cons, List.map_map]
    congr 1
    apply congrFun
    apply congrArg
    funext d
    by_cases h : 0 < d
    · simp [Function.comp, h]
    · simp [Function.comp, h]

theorem lossesF_map_num (l : List ℚ) :
    lossesF (l.map PFloat.num) = (lossesQ l).map PFloat.num := by
  cases l with
  | nil => rfl
  | cons x rest =>
    show negWhereLtZero (diffF ((x :: rest).map PFloat.num)) = _
    have hd : diffF ((x :: rest).map PFloat.num) =
        PFloat.nan :: List.zipWith PFloat.sub (rest.map PFloat.num)
          ((x :: rest).map PFloat.num) := rfl
    rw [hd, zipWith_sub_map_num, negWhereLtZero, List.map_cons, List.map_map]
    show PFloat.neg (if PFloat.lt PFloat.nan (PFloat.num 0) then PFloat.nan
        else PFloat.num 0) :: _ = _
    rw [if_neg (by simp [PFloat.lt])]
    show PFloat.num (-0) :: List.map _ (deltasQ (x :: rest)) = _
    rw [lossesQ, List.map_cons, List.map_map]
    have hfun2 : ((fun v => PFloat.neg (if PFloat.lt v (PFloat.num 0) then v
          else PFloat.num 0)) ∘ PFloat.num) =
        (PFloat.num ∘ fun d : ℚ => -(if d < 0 then d else 0)) := by
      funext d
      by_cases h : d < 0
      · simp [Function.comp, h]
      · simp [Function.comp, h]
    rw [hfun2]
    norm_num

theorem getD_map_range (n : Nat) (f : Nat → α) (i : Nat) (d : α) (h : i < n) :
    (((List.range n).map f).getD i d) = f i := by
  rw [List.getD_eq_getElem _ _ (by simp [List.length_range]; omega)]
  simp

theorem map_toPF_of_all_some (s : List (Option ℚ)) (h : ∀ x ∈ s, x ≠ none) :
    s.map toPF = s.reduceOption.map PFloat.num := by
  induction s with
  | nil => rfl
  | cons x t ih =>
    cases x with
    | none => exact absurd rfl (h none (List.mem_cons_self _ _))
    | some q =>
      rw [List.map_cons, List.reduceOption_cons_of_some, List.map_cons]
      rw [ih (fun y hy => h y (List.mem_cons_of_mem _ hy))]
      rfl

theorem length_deltasQ (l : List ℚ) : (deltasQ l).length = l.length - 1 := by
  cases l with
  | nil => rfl
  | cons x rest => simp [deltasQ, List.length_zipWith]

theorem length_gainsQ (l : List ℚ) : (gainsQ l).length = l.length := by
  cases l with
  | nil => rfl
  | cons x rest => simp [gainsQ, length_deltasQ]

theorem length_lossesQ (l : List ℚ) : (lossesQ l).length = l.length := by
  cases l with
  | nil => rfl
  | cons x rest => simp [lossesQ, length_deltasQ]

theorem deltasQ_getElem (l : List ℚ) (m : Nat) (h : m + 1 < l.length)
    (hb : m < (deltasQ l).length) (hm1 : m < l.length) :
    (deltasQ l)[m] = l[m + 1] - l[m] := by
  cases l with
  | nil => simp at h
  | cons x rest =>
    have hm : m < rest.length := by simpa using h
    have hz : m < (List.zipWith (fun b a => b - a) rest (x :: rest)).length := by
      simp [List.length_zipWith]
      omega
    show (List.zipWith (fun b a => b - a) rest (x :: rest))[m] = _
    rw [List.getElem_zipWith]
    simp

theorem gainsQ_getElem_succ (l : List ℚ) (m : Nat) (h : m + 1 < l.length)
    (hb : m + 1 < (gainsQ l).length) (hm1 : m < l.length) :
    (gainsQ l)[m + 1] =
      (fun d => if 0 < d then d else 0) (l[m + 1] - l[m]) := by
  cases l with
  | nil => simp at h
  | cons x rest =>
    have hd : m < (deltasQ (x :: rest)).length := by
      rw [length_deltasQ]
      simp only [List.length_cons] at h ⊢
      omega
    simp only [gainsQ, List.getElem_cons_succ]
    rw [List.getElem_map]
    rw [deltasQ_getElem _ _ h hd hm1]
    simp [List.getElem_cons_succ]

theorem lossesQ_getElem_succ (l : List ℚ) (m : Nat) (h : m + 1 < l.length)
    (hb : m + 1 < (lossesQ l).length) (hm1 : m < l.length) :
    (lossesQ l)[m + 1] =
      (fun d => -(if d < 0 then d else 0)) (l[m + 1] - l[m]) := by
  cases l with
  | nil => simp at h
  | cons x rest =>
    have hd : m < (deltasQ (x :: rest)).length := by
      rw [length_deltasQ]
      simp only [List.length_cons] at h ⊢
      omega
    simp only [lossesQ, List.getElem_cons_succ]
    rw [List.getElem_map]
    rw [deltasQ_getElem _ _ h hd hm1]
    simp [List.getElem_cons_succ]

theorem gainsQ_getElem_zero (l : List ℚ) (h : 0 < l.length)
    (hb : 0 < (gainsQ l).length) : (gainsQ l)[0] = 0 := by
  cases l with
  | nil => simp at h
  | cons x rest => rfl

theorem lossesQ_getElem_zero (l : List ℚ) (h : 0 < l.length)
    (hb : 0 < (lossesQ l).length) : (lossesQ l)[0] = 0 := by
  cases l with
  | nil => simp at h
  | cons x rest => rfl

theorem gainsQ_nonneg (l : List ℚ) : ∀ y ∈ gainsQ l, 0 ≤ y := by
  intro y hy
  cases l with
  | nil => cases hy
  | cons x rest =>
    rcases List.mem_cons.mp hy with rfl | hy
    · exact le_refl 0
    · rcases List.mem_map.mp hy with ⟨d, _, rfl⟩
      by_cases h : 0 < d
      · simp [h]
        exact le_of_lt h
      · simp [h]

theorem lossesQ_nonneg (l : List ℚ) : ∀ y ∈ lossesQ l, 0 ≤ y := by
  intro y hy
  cases l with
  | nil => cases hy
  | cons x rest =>
    rcases List.mem_cons.mp hy with rfl | hy
    · exact le_refl 0
    · rcases List.mem_map.mp hy with ⟨d, _, rfl⟩
      by_cases h : d < 0
      · simp [h]
        linarith
      · simp [h]

/-! ## Claim theorems -/

/-- C3: for every Close series (with possible gaps) and every window `w ≥ 1`,
the `SMA_{w}` column keeps one entry per input row, is undefined (NaN) at the
first `w - 1` rows and at every row whose trailing-`w` window contains a
missing Close value, and at every other row with index `≥ w - 1` equals the
arithmetic mean of the trailing `w` Close values including the current row. -/
theorem sma_warmup_gap_and_mean (close : List (Option ℚ)) (w i : Nat)
    (hw : 1 ≤ w) (hi : i < close.length) :
    (smaSeries (close.map toPF) w).length = close.length ∧
    (smaSeries (close.map toPF) w).getD i PFloat.nan =
      rollingMeanF (close.map toPF) w i ∧
    (i + 1 < w → rollingMeanF (close.map toPF) w i = PFloat.nan) ∧
    (w ≤ i + 1 →
      ((∃ t, i + 1 - w ≤ t ∧ t ≤ i ∧ ∃ ht : t < close.length, close[t] = none) →
        rollingMeanF (close.map toPF) w i = PFloat.nan) ∧
      ((∀ t (ht : t < close.length), i + 1 - w ≤ t → t ≤ i → close[t] ≠ none) →
        rollingMeanF (close.map toPF) w i =
          PFloat.num ((windowSlice close w i).reduceOption.sum / (w : ℚ)))) := by
  have hlen : (close.map toPF).length = close.length := List.length_map _ _
  refine ⟨by simp [smaSeries, hlen], ?_, ?_, ?_⟩
  · rw [smaSeries, hlen, getD_map_range _ _ _ _ hi]
  · intro hshort
    exact rollingMeanF_short _ _ _ hshort
  · intro hfull
    constructor
    · rintro ⟨t, ht1, ht2, ht, hnone⟩
      have hany : (windowSlice (close.map toPF) w i).any PFloat.isNan = true := by
        rw [windowSlice_map, List.any_eq_true]
        refine ⟨toPF close[t], List.mem_map_of_mem toPF ?_, by simp [hnone, toPF]⟩
        rw [mem_windowSlice_iff close w i hfull hi]
        exact ⟨t, ht1, ht2, ht, rfl⟩
      rw [rollingMeanF, if_neg (by omega), if_pos hany]
    · intro hall
      have hs : ∀ x ∈ windowSlice close w i, x ≠ none := by
        intro x hx
        rw [mem_windowSlice_iff close w i hfull hi] at hx
        rcases hx with ⟨t, ht1, ht2, ht, rfl⟩
        exact hall t ht ht1 ht2
      rw [rollingMeanF, if_neg (by omega), windowSlice_map,
        map_toPF_of_all_some _ hs, if_neg (by simp [any_isNan_map_num]),
        sumF_map_num]
      exact PFloat.div_num_of_ne _ _ (Nat.cast_ne_zero.mpr (by omega))

/-- Witness for C3: on the five-row series with a gap at row 2, `SMA_5` at
row 4 is undefined; on a gap-free three-row series, `SMA_3` at row 2 is the
mean of the three closes. -/
theorem sma_warmup_gap_and_mean_witness :
    rollingMeanF ([some 1, some 2, none, some 4, some (5 : ℚ)].map toPF) 5 4 =
      PFloat.nan ∧
    rollingMeanF ([some 1, some 2, some (3 : ℚ)].map toPF) 3 2 =
      PFloat.num 2 := by
  constructor
  · exact ((sma_warmup_gap_and_mean [some 1, some 2, none, some 4, some 5] 5 4
      (by decide) (by decide)).2.2.2 (by decide)).1
      ⟨2, by decide, by decide, by decide, rfl⟩
  · have h := ((sma_warmup_gap_and_mean [some 1, some 2, some 3] 3 2
      (by decide) (by decide)).2.2.2 (by decide)).2 (by decide)
    rw [h]
    congr 1
    simp [windowSlice]
    norm_num

theorem getD_map_num (l : List ℚ) (i : Nat) (h : i < l.length) :
    (l.map PFloat.num).getD i PFloat.nan = PFloat.num l[i] := by
  rw [List.getD_eq_getElem _ _ (by simp [h])]
  simp

theorem convex_between (a x p : ℚ) (h0 : 0 < a) (h1 : a ≤ 1) :
    min x p ≤ a * x + (1 - a) * p ∧ a * x + (1 - a) * p ≤ max x p := by
  rcases le_total x p with h | h
  · rw [min_eq_left h, max_eq_right h]
    constructor
    · nlinarith
    · nlinarith
  · rw [min_eq_right h, max_eq_left h]
    constructor
    · nlinarith
    · nlinarith

/-- C4: for every gap-free Close series and every EMA window `w ≥ 1`, the
`EMA_{w}` column has one finite entry per row, its first entry is exactly
`Close[0]`, and each later entry satisfies
`EMA[t] = alpha * Close[t] + (1 - alpha) * EMA[t-1]` with
`alpha = 2 / (w + 1)`; consequently every later entry lies between the
current close and the previous EMA value. -/
theorem ema_recurrence_and_bounds (close : List ℚ) (w : Nat) (hw : 1 ≤ w) :
    (emaSeries (close.map PFloat.num) w).length = close.length ∧
    (∀ i, i < close.length →
      ∃ q, (emaSeries (close.map PFloat.num) w).getD i PFloat.nan = PFloat.num q) ∧
    (0 < close.length →
      (emaSeries (close.map PFloat.num) w).getD 0 PFloat.nan =
        PFloat.num (close.getD 0 0)) ∧
    (∀ t, t + 1 < close.length →
      ∃ p c, (emaSeries (close.map PFloat.num) w).getD t PFloat.nan = PFloat.num p ∧
        (emaSeries (close.map PFloat.num) w).getD (t + 1) PFloat.nan = PFloat.num c ∧
        c = (2 / ((w : ℚ) + 1)) * close.getD (t + 1) 0 +
          (1 - 2 / ((w : ℚ) + 1)) * p ∧
        min (close.getD (t + 1) 0) p ≤ c ∧ c ≤ max (close.getD (t + 1) 0) p) := by
  have hb : emaSeries (close.map PFloat.num) w = (ewmQ w close).map PFloat.num := by
    rw [emaSeries, ewmMeanF_map_num]
  have hlen : (ewmQ w close).length = close.length := length_ewmQ w close
  refine ⟨by rw [hb]; simp [hlen], ?_, ?_, ?_⟩
  · intro i hi
    have hbi : i < (ewmQ w close).length := by omega
    exact ⟨(ewmQ w close)[i], by
      rw [hb, getD_map_num _ _ (by omega)]⟩
  · intro h0
    rw [hb, getD_map_num _ _ (by omega), List.getD_eq_getElem _ _ h0,
      ewmQ_getElem_zero w close h0 (by omega)]
  · intro t ht
    have ha0 : 0 < 2 / ((w : ℚ) + 1) := by
      apply div_pos (by norm_num)
      have : (1 : ℚ) ≤ (w : ℚ) := by exact_mod_cast hw
      linarith
    have ha1 : 2 / ((w : ℚ) + 1) ≤ 1 := by
      rw [div_le_one (by positivity)]
      have : (1 : ℚ) ≤ (w : ℚ) := by exact_mod_cast hw
      linarith
    have hbt : t < (ewmQ w close).length := by omega
    have hbt1 : t + 1 < (ewmQ w close).length := by omega
    refine ⟨(ewmQ w close)[t], (ewmQ w close)[t + 1],
      by rw [hb, getD_map_num _ _ (by omega)],
      by rw [hb, getD_map_num _ _ (by omega)], ?_, ?_⟩
    · rw [ewmQ_getElem_succ w close t ht hbt1 hbt, List.getD_eq_getElem _ _ ht]
    · rw [ewmQ_getElem_succ w close t ht hbt1 hbt, List.getD_eq_getElem _ _ ht]
      exact convex_between _ _ _ ha0 ha1

/-- Witness for C4 on the two-row series `[1, 3]` with window `3`
(`alpha = 1/2`). -/
theorem ema_recurrence_and_bounds_witness :
    ∃ p c, (emaSeries (([1, 3] : List ℚ).map PFloat.num) 3).getD 0 PFloat.nan =
        PFloat.num p ∧
      (emaSeries (([1, 3] : List ℚ).map PFloat.num) 3).getD 1 PFloat.nan =
        PFloat.num c ∧
      c = (2 / ((3 : ℚ) + 1)) * (([1, 3] : List ℚ).getD 1 0) +
        (1 - 2 / ((3 : ℚ) + 1)) * p ∧
      min (([1, 3] : List ℚ).getD 1 0) p ≤ c ∧
      c ≤ max (([1, 3] : List ℚ).getD 1 0) p :=
  (ema_recurrence_and_bounds [1, 3] 3 (by decide)).2.2.2 0 (by decide)

theorem zipWith_psub_map_num (l1 l2 : List ℚ) :
    List.zipWith PFloat.sub (l1.map PFloat.num) (l2.map PFloat.num) =
      (List.zipWith (fun a b => a - b) l1 l2).map PFloat.num := by
  rw [List.zipWith_map, List.map_zipWith]
  have h : (fun (a b : ℚ) => PFloat.sub (PFloat.num a) (PFloat.num b)) =
      fun a b => PFloat.num (a - b) := by
    funext a b
    simp
  rw [h]

theorem macdSeries_map_num (close : List ℚ) (sw lw : Nat) :
    macdSeries (close.map PFloat.num) sw lw = (macdQ close sw lw).map PFloat.num := by
  rw [macdSeries, ewmMeanF_map_num, ewmMeanF_map_num, zipWith_psub_map_num, macdQ]

theorem length_macdQ (close : List ℚ) (sw lw : Nat) :
    (macdQ close sw lw).length = close.length := by
  simp [macdQ, List.length_zipWith, length_ewmQ]

/-- C5: for every gap-free Close series and all windows, the `MACD` column is
the pointwise difference of the short and long EMAs of Close, and the
`MACD_Signal` column is the EMA recurrence with the signal window applied to
the MACD series itself: seeded at `MACD[0]` and obeying
`Signal[t] = alpha * MACD[t] + (1 - alpha) * Signal[t-1]` with
`alpha = 2 / (signal + 1)`. -/
theorem macd_diff_and_signal_recurrence (close : List ℚ) (sw lw gw : Nat) :
    (macdSeries (close.map PFloat.num) sw lw).length = close.length ∧
    (∀ i, i < close.length → ∃ a b,
      (ewmMeanF sw (close.map PFloat.num)).getD i PFloat.nan = PFloat.num a ∧
      (ewmMeanF lw (close.map PFloat.num)).getD i PFloat.nan = PFloat.num b ∧
      (macdSeries (close.map PFloat.num) sw lw).getD i PFloat.nan =
        PFloat.num (a - b)) ∧
    (0 < close.length →
      (macdSignalSeries (close.map PFloat.num) sw lw gw).getD 0 PFloat.nan =
        (macdSeries (close.map PFloat.num) sw lw).getD 0 PFloat.nan) ∧
    (∀ t, t + 1 < close.length → ∃ m p c,
      (macdSeries (close.map PFloat.num) sw lw).getD (t + 1) PFloat.nan =
        PFloat.num m ∧
      (macdSignalSeries (close.map PFloat.num) sw lw gw).getD t PFloat.nan =
        PFloat.num p ∧
      (macdSignalSeries (close.map PFloat.num) sw lw gw).getD (t + 1) PFloat.nan =
        PFloat.num c ∧
      c = (2 / ((gw : ℚ) + 1)) * m + (1 - 2 / ((gw : ℚ) + 1)) * p) := by
  have hm : macdSeries (close.map PFloat.num) sw lw =
      (macdQ close sw lw).map PFloat.num := macdSeries_map_num close sw lw
  have hs : macdSignalSeries (close.map PFloat.num) sw lw gw =
      (ewmQ gw (macdQ close sw lw)).map PFloat.num := by
    rw [macdSignalSeries, hm, ewmMeanF_map_num]
  have hlm : (macdQ close sw lw).length = close.length := length_macdQ close sw lw
  refine ⟨by rw [hm]; simp [hlm], ?_, ?_, ?_⟩
  · intro i hi
    have hbs : i < (ewmQ sw close).length := by rw [length_ewmQ]; omega
    have hbl : i < (ewmQ lw close).length := by rw [length_ewmQ]; omega
    refine ⟨(ewmQ sw close)[i], (ewmQ lw close)[i], ?_, ?_, ?_⟩
    · rw [ewmMeanF_map_num, getD_map_num _ _ (by rw [length_ewmQ]; omega)]
    · rw [ewmMeanF_map_num, getD_map_num _ _ (by rw [length_ewmQ]; omega)]
    · rw [hm, getD_map_num _ _ (by omega)]
      congr 1
      simp only [macdQ]
      rw [List.getElem_zipWith]
  · intro h0
    rw [hs, hm, getD_map_num _ _ (by rw [length_ewmQ]; omega),
      getD_map_num _ _ (by omega)]
    congr 1
    exact ewmQ_getElem_zero gw (macdQ close sw lw) (by omega)
      (by rw [length_ewmQ]; omega)
  · intro t ht
    have hbm : t + 1 < (macdQ close sw lw).length := by omega
    have hbg : t < (ewmQ gw (macdQ close sw lw)).length := by
      rw [length_ewmQ]
      omega
    have hbg1 : t + 1 < (ewmQ gw (macdQ close sw lw)).length := by
      rw [length_ewmQ]
      omega
    refine ⟨(macdQ close sw lw)[t + 1], (ewmQ gw (macdQ close sw lw))[t],
      (ewmQ gw (macdQ close sw lw))[t + 1],
      by rw [hm, getD_map_num _ _ (by omega)],
      by rw [hs, getD_map_num _ _ (by rw [length_ewmQ]; omega)],
      by rw [hs, getD_map_num _ _ (by rw [length_ewmQ]; omega)], ?_⟩
    exact ewmQ_getElem_succ gw (macdQ close sw lw) t (by omega) hbg1 hbg

/-- Witness for C5 on the series `[0, 4]` with windows `1, 3, 3`. -/
theorem macd_diff_and_signal_recurrence_witness :
    ∃ m p c,
      (macdSeries (([0, 4] : List ℚ).map PFloat.num) 1 3).getD 1 PFloat.nan =
        PFloat.num m ∧
      (macdSignalSeries (([0, 4] : List ℚ).map PFloat.num) 1 3 3).getD 0 PFloat.nan =
        PFloat.num p ∧
      (macdSignalSeries (([0, 4] : List ℚ).map PFloat.num) 1 3 3).getD 1 PFloat.nan =
        PFloat.num c ∧
      c = (2 / ((3 : ℚ) + 1)) * m + (1 - 2 / ((3 : ℚ) + 1)) * p :=
  (macd_diff_and_signal_recurrence [0, 4] 1 3 3).2.2.2 0 (by decide)

/-- C2: for every OHLC series with `Low[t] <= Close[t] <= High[t]` and every
`%K` window `k >= 1`, at each row with a full window the code yields: when the
trailing range `max High - min Low` is non-zero, a finite `%K` value equal to
`100 * (Close - min Low) / (max High - min Low)` lying in `[0, 100]`; when the
range is zero, NaN (pandas `0.0 / 0.0`) — never an exception, a raised
division error, or an infinite value. -/
theorem pctk_in_range_or_degenerate_nan (high low close : List ℚ) (k i : Nat)
    (hk : 1 ≤ k) (hlh : high.length = close.length)
    (hll : low.length = close.length) (hi : i < close.length)
    (hfull : k ≤ i + 1)
    (hb : ∀ t, t < close.length →
      low.getD t 0 ≤ close.getD t 0 ∧ close.getD t 0 ≤ high.getD t 0) :
    (foldMaxQ (windowSlice high k i) ≠ foldMinQ (windowSlice low k i) →
      pctKAt (high.map PFloat.num) (low.map PFloat.num) (close.map PFloat.num) k i =
        PFloat.num ((close.getD i 0 - foldMinQ (windowSlice low k i)) /
          (foldMaxQ (windowSlice high k i) - foldMinQ (windowSlice low k i)) * 100) ∧
      0 ≤ (close.getD i 0 - foldMinQ (windowSlice low k i)) /
          (foldMaxQ (windowSlice high k i) - foldMinQ (windowSlice low k i)) * 100 ∧
      (close.getD i 0 - foldMinQ (windowSlice low k i)) /
          (foldMaxQ (windowSlice high k i) - foldMinQ (windowSlice low k i)) * 100
        ≤ 100) ∧
    (foldMaxQ (windowSlice high k i) = foldMinQ (windowSlice low k i) →
      pctKAt (high.map PFloat.num) (low.map PFloat.num) (close.map PFloat.num) k i =
        PFloat.nan) := by
  set m := foldMinQ (windowSlice low k i) with hm
  set M := foldMaxQ (windowSlice high k i) with hM
  set c := close.getD i 0 with hc
  have hkne : k ≠ 0 := by omega
  have hminr : rollingMinF (low.map PFloat.num) k i = PFloat.num m :=
    rollingMinF_map_num low k i hkne hfull (by omega)
  have hmaxr : rollingMaxF (high.map PFloat.num) k i = PFloat.num M :=
    rollingMaxF_map_num high k i hkne hfull (by omega)
  have hcg : (close.map PFloat.num).getD i PFloat.nan = PFloat.num c := by
    rw [getD_map_num _ _ hi, hc, List.getD_eq_getElem _ _ hi]
  have hlowslice : windowSlice low k i ≠ [] := by
    intro h
    have := length_windowSlice low k i hfull (by omega)
    rw [h] at this
    simp at this
    omega
  have hhighslice : windowSlice high k i ≠ [] := by
    intro h
    have := length_windowSlice high k i hfull (by omega)
    rw [h] at this
    simp at this
    omega
  have hmc : m ≤ c := by
    have hmem : low.getD i 0 ∈ windowSlice low k i := by
      rw [mem_windowSlice_iff low k i hfull (by omega)]
      exact ⟨i, by omega, le_refl i, by omega,
        (List.getD_eq_getElem low 0 (by omega)).symm⟩
    calc m ≤ low.getD i 0 := foldMinQ_le _ hlowslice _ hmem
      _ ≤ c := (hb i hi).1
  have hcM : c ≤ M := by
    have hmem : high.getD i 0 ∈ windowSlice high k i := by
      rw [mem_windowSlice_iff high k i hfull (by omega)]
      exact ⟨i, by omega, le_refl i, by omega,
        (List.getD_eq_getElem high 0 (by omega)).symm⟩
    calc c ≤ high.getD i 0 := (hb i hi).2
      _ ≤ M := le_foldMaxQ _ hhighslice _ hmem
  constructor
  · intro hne
    have hMm : 0 < M - m := by
      have : m ≤ M := le_trans hmc hcM
      rcases lt_or_eq_of_le this with h | h
      · linarith
      · exact absurd h.symm hne
    have hval : pctKAt (high.map PFloat.num) (low.map PFloat.num)
        (close.map PFloat.num) k i = PFloat.num ((c - m) / (M - m) * 100) := by
      rw [pctKAt, hminr, hmaxr, hcg, PFloat.sub_num, PFloat.sub_num,
        PFloat.div_num_of_ne _ _ (by linarith), PFloat.mul_num]
    refine ⟨hval, ?_, ?_⟩
    · exact mul_nonneg (div_nonneg (by linarith) (by linarith)) (by norm_num)
    · have h1 : (c - m) / (M - m) ≤ 1 := by
        rw [div_le_one hMm]
        linarith
      nlinarith
  · intro heq
    have hceq : c = m := le_antisymm (by rw [heq] at hcM; exact hcM) hmc
    rw [pctKAt, hminr, hmaxr, hcg, PFloat.sub_num, PFloat.sub_num, heq, hceq]
    simp [PFloat.div, PFloat.mul]

/-- Witness for C2 with `High = [2,3]`, `Low = [0,1]`, `Close = [1,2]`,
`k = 1`, row `1`: the range is `3 - 1 = 2` and `%K = 50`. -/
theorem pctk_in_range_or_degenerate_nan_witness :
    pctKAt (([2, 3] : List ℚ).map PFloat.num) (([0, 1] : List ℚ).map PFloat.num)
      (([1, 2] : List ℚ).map PFloat.num) 1 1 = PFloat.num 50 := by
  have h := (pctk_in_range_or_degenerate_nan [2, 3] [0, 1] [1, 2] 1 1
    (by decide) rfl rfl (by decide) (by decide)
    (by decide)).1
    (by norm_num [windowSlice, foldMinQ, foldMaxQ])
  rw [h.1]
  congr 1
  norm_num [windowSlice, foldMinQ, foldMaxQ, List.getD]

theorem length_gainsF_map (close : List ℚ) :
    (gainsF (close.map PFloat.num)).length = close.length := by
  rw [gainsF_map_num]
  simp [length_gainsQ]

theorem length_lossesF_map (close : List ℚ) :
    (lossesF (close.map PFloat.num)).length = close.length := by
  rw [lossesF_map_num]
  simp [length_lossesQ]

theorem rollingMeanF_undef (xs : List PFloat) (w i : Nat)
    (h : w = 0 ∨ i + 1 < w ∨ xs.length ≤ i) : rollingMeanF xs w i = PFloat.nan := by
  rw [rollingMeanF, if_pos h]

theorem avgGain_eq (close : List ℚ) (w i : Nat) (hw : w ≠ 0)
    (hfull : w ≤ i + 1) (hi : i < close.length) :
    rollingMeanF (gainsF (close.map PFloat.num)) w i =
      PFloat.num ((windowSlice (gainsQ close) w i).sum / (w : ℚ)) := by
  rw [gainsF_map_num]
  exact rollingMeanF_map_num _ w i hw hfull (by rw [length_gainsQ]; omega)

theorem avgLoss_eq (close : List ℚ) (w i : Nat) (hw : w ≠ 0)
    (hfull : w ≤ i + 1) (hi : i < close.length) :
    rollingMeanF (lossesF (close.map PFloat.num)) w i =
      PFloat.num ((windowSlice (lossesQ close) w i).sum / (w : ℚ)) := by
  rw [lossesF_map_num]
  exact rollingMeanF_map_num _ w i hw hfull (by rw [length_lossesQ]; omega)

theorem mem_of_mem_windowSlice (xs : List α) (w i : Nat) (y : α)
    (h : y ∈ windowSlice xs w i) : y ∈ xs :=
  List.mem_of_mem_drop (List.mem_of_mem_take h)

/-- C1, evaluated at the failing input: on the flat three-row series
`[5, 5, 5]` with window `2` at the full-window row `2`, the trailing average
loss (and average gain) is exactly `0`, yet the RSI value is NaN — the
`0/0` of `rs = gain/loss` propagates — rather than the `100` the
specification's zero-loss policy requires; no branch produces `100`. -/
theorem rsi_flat_zero_loss_yields_nan :
    rollingMeanF (lossesF (([5, 5, 5] : List ℚ).map PFloat.num)) 2 2 =
      PFloat.num 0 ∧
    rollingMeanF (gainsF (([5, 5, 5] : List ℚ).map PFloat.num)) 2 2 =
      PFloat.num 0 ∧
    rsiAt (([5, 5, 5] : List ℚ).map PFloat.num) 2 2 = PFloat.nan := by
  have hl : rollingMeanF (lossesF (([5, 5, 5] : List ℚ).map PFloat.num)) 2 2 =
      PFloat.num 0 := by
    rw [avgLoss_eq [5, 5, 5] 2 2 (by decide) (by decide) (by decide)]
    congr 1
    norm_num [lossesQ, deltasQ, windowSlice]
  have hg : rollingMeanF (gainsF (([5, 5, 5] : List ℚ).map PFloat.num)) 2 2 =
      PFloat.num 0 := by
    rw [avgGain_eq [5, 5, 5] 2 2 (by decide) (by decide) (by decide)]
    congr 1
    norm_num [gainsQ, deltasQ, windowSlice]
  refine ⟨hl, hg, ?_⟩
  rw [rsiAt, hl, hg]
  simp [PFloat.div]

theorem gainsQ_getElem_pred (close : List ℚ) (t : Nat) (h1 : 1 ≤ t)
    (h2 : t < close.length) (hb : t < (gainsQ close).length)
    (hp : t - 1 < close.length) :
    (gainsQ close)[t] =
      if 0 < close[t] - close[t - 1] then close[t] - close[t - 1] else 0 := by
  have h3 : t - 1 + 1 < close.length := by omega
  have h4 := gainsQ_getElem_succ close (t - 1) h3
    (by rw [length_gainsQ]; omega) (by omega)
  simp only [show t - 1 + 1 = t from by omega] at h4
  exact h4

theorem lossesQ_getElem_pred (close : List ℚ) (t : Nat) (h1 : 1 ≤ t)
    (h2 : t < close.length) (hb : t < (lossesQ close).length)
    (hp : t - 1 < close.length) :
    (lossesQ close)[t] =
      -(if close[t] - close[t - 1] < 0 then close[t] - close[t - 1] else 0) := by
  have h3 : t - 1 + 1 < close.length := by omega
  have h4 := lossesQ_getElem_succ close (t - 1) h3
    (by rw [length_lossesQ]; omega) (by omega)
  simp only [show t - 1 + 1 = t from by omega] at h4
  exact h4

/-- C7 counterexample: on the flat four-row series `[7, 7, 7, 7]` with window
`2`, every delta of the full window at row `3` is zero — hence non-negative
and non-positive alike — yet the RSI value there is NaN: neither `100` nor
`0`, refuting both extreme clauses of the claim as stated. -/
theorem rsi_flat_refutes_extreme_clauses :
    ([7, 7, 7, 7] : List ℚ).getD 2 0 - ([7, 7, 7, 7] : List ℚ).getD 1 0 = 0 ∧
    ([7, 7, 7, 7] : List ℚ).getD 3 0 - ([7, 7, 7, 7] : List ℚ).getD 2 0 = 0 ∧
    rsiAt (([7, 7, 7, 7] : List ℚ).map PFloat.num) 2 3 = PFloat.nan ∧
    rsiAt (([7, 7, 7, 7] : List ℚ).map PFloat.num) 2 3 ≠ PFloat.num 100 ∧
    rsiAt (([7, 7, 7, 7] : List ℚ).map PFloat.num) 2 3 ≠ PFloat.num 0 := by
  have hl : rollingMeanF (lossesF (([7, 7, 7, 7] : List ℚ).map PFloat.num)) 2 3 =
      PFloat.num 0 := by
    rw [avgLoss_eq [7, 7, 7, 7] 2 3 (by decide) (by decide) (by decide)]
    congr 1
    norm_num [lossesQ, deltasQ, windowSlice]
  have hg : rollingMeanF (gainsF (([7, 7, 7, 7] : List ℚ).map PFloat.num)) 2 3 =
      PFloat.num 0 := by
    rw [avgGain_eq [7, 7, 7, 7] 2 3 (by decide) (by decide) (by decide)]
    congr 1
    norm_num [gainsQ, deltasQ, windowSlice]
  have hnan : rsiAt (([7, 7, 7, 7] : List ℚ).map PFloat.num) 2 3 = PFloat.nan := by
    rw [rsiAt, hl, hg]
    simp [PFloat.div]
  refine ⟨by norm_num [List.getD], by norm_num [List.getD], hnan,
    by rw [hnan]; simp, by rw [hnan]; simp⟩

/-- C7 amended: wherever RSI is a finite number it lies in `[0, 100]`; at a
row whose `w` trailing genuine deltas are all non-negative **with at least one
strictly positive**, RSI is exactly `100`; at a row whose deltas are all
non-positive **with at least one strictly negative**, RSI is exactly `0`.
(The all-zero window, excluded here, yields NaN — see the counterexample.) -/
theorem rsi_range_and_strict_extremes (close : List ℚ) (w i : Nat)
    (hw : 1 ≤ w) :
    (∀ q, rsiAt (close.map PFloat.num) w i = PFloat.num q → 0 ≤ q ∧ q ≤ 100) ∧
    (w ≤ i → i < close.length →
      (∀ t, i + 1 - w ≤ t → t ≤ i →
        0 ≤ close.getD t 0 - close.getD (t - 1) 0) →
      (∃ t, i + 1 - w ≤ t ∧ t ≤ i ∧
        0 < close.getD t 0 - close.getD (t - 1) 0) →
      rsiAt (close.map PFloat.num) w i = PFloat.num 100) ∧
    (w ≤ i → i < close.length →
      (∀ t, i + 1 - w ≤ t → t ≤ i →
        close.getD t 0 - close.getD (t - 1) 0 ≤ 0) →
      (∃ t, i + 1 - w ≤ t ∧ t ≤ i ∧
        close.getD t 0 - close.getD (t - 1) 0 < 0) →
      rsiAt (close.map PFloat.num) w i = PFloat.num 0) := by
  have hwq : (0 : ℚ) < (w : ℚ) := by exact_mod_cast by omega
  refine ⟨?_, ?_, ?_⟩
  · intro q hq
    by_cases hok : w ≤ i + 1 ∧ i < close.length
    · obtain ⟨hfull, hi⟩ := hok
      rw [rsiAt, avgGain_eq close w i (by omega) hfull hi,
        avgLoss_eq close w i (by omega) hfull hi] at hq
      set g := (windowSlice (gainsQ close) w i).sum / (w : ℚ) with hgdef
      set l := (windowSlice (lossesQ close) w i).sum / (w : ℚ) with hldef
      have hgnn : 0 ≤ g := by
        apply div_nonneg _ (le_of_lt hwq)
        exact List.sum_nonneg fun x hx =>
          gainsQ_nonneg close x (mem_of_mem_windowSlice _ w i x hx)
      have hlnn : 0 ≤ l := by
        apply div_nonneg _ (le_of_lt hwq)
        exact List.sum_nonneg fun x hx =>
          lossesQ_nonneg close x (mem_of_mem_windowSlice _ w i x hx)
      by_cases hl0 : l = 0
      · by_cases hg0 : g = 0
        · rw [hl0, hg0] at hq
          simp [PFloat.div] at hq
        · have hgpos : 0 < g := lt_of_le_of_ne hgnn (Ne.symm hg0)
          rw [hl0, PFloat.div_num_zero_pos g hgpos] at hq
          simp only [PFloat.num_add_pinf, PFloat.num_div_pinf, PFloat.sub_num] at hq
          have hqe : (100 : ℚ) - 0 = q := by injection hq
          constructor
          · linarith
          · linarith
      · have hlpos : 0 < l := lt_of_le_of_ne hlnn (Ne.symm hl0)
        rw [PFloat.div_num_of_ne g l hl0] at hq
        have h1p : (0 : ℚ) < 1 + g / l := by
          have : 0 ≤ g / l := div_nonneg hgnn hlnn
          linarith
        rw [PFloat.add_num, PFloat.div_num_of_ne _ _ (ne_of_gt h1p),
          PFloat.sub_num] at hq
        have hqe : 100 - 100 / (1 + g / l) = q := by
          injection hq
        have hr : 0 ≤ g / l := div_nonneg hgnn hlnn
        have hle : 100 / (1 + g / l) ≤ 100 := by
          rw [div_le_iff₀ h1p]
          nlinarith
        have hpos : 0 < 100 / (1 + g / l) := by positivity
        constructor
        · linarith
        · linarith
    · have hcond : i + 1 < w ∨ close.length ≤ i := by omega
      rw [rsiAt,
        rollingMeanF_undef _ w i (by rw [length_gainsF_map]; omega),
        rollingMeanF_undef _ w i (by rw [length_lossesF_map]; omega)] at hq
      simp at hq
  · intro hwi hi hall hex
    obtain ⟨t0, ht01, ht02, ht0pos⟩ := hex
    have hfull : w ≤ i + 1 := by omega
    rw [rsiAt, avgGain_eq close w i (by omega) hfull hi,
      avgLoss_eq close w i (by omega) hfull hi]
    have hLzero : (windowSlice (lossesQ close) w i).sum = 0 := by
      apply List.sum_eq_zero
      intro x hx
      rw [mem_windowSlice_iff _ w i hfull (by rw [length_lossesQ]; omega)] at hx
      obtain ⟨t, h1, h2, ht, rfl⟩ := hx
      have ht1 : 1 ≤ t := by omega
      have htl : t < close.length := by rw [length_lossesQ] at ht; omega
      rw [lossesQ_getElem_pred close t ht1 htl ht (by omega)]
      have hd := hall t h1 h2
      rw [List.getD_eq_getElem close 0 htl,
        List.getD_eq_getElem close 0 (by omega)] at hd
      rw [if_neg (by linarith)]
      norm_num
    have ht0l : t0 < close.length := by omega
    have ht01' : 1 ≤ t0 := by omega
    have hd0 := ht0pos
    rw [List.getD_eq_getElem close 0 ht0l,
      List.getD_eq_getElem close 0 (by omega)] at hd0
    have hbt0 : t0 < (gainsQ close).length := by rw [length_gainsQ]; omega
    have hbt0p : t0 - 1 < close.length := by omega
    have hGpos : 0 < (windowSlice (gainsQ close) w i).sum := by
      have hmem : (gainsQ close)[t0] ∈ windowSlice (gainsQ close) w i := by
        rw [mem_windowSlice_iff _ w i hfull (by rw [length_gainsQ]; omega)]
        exact ⟨t0, ht01, ht02, by rw [length_gainsQ]; omega, rfl⟩
      have hval : (gainsQ close)[t0] = close[t0] - close[t0 - 1] := by
        rw [gainsQ_getElem_pred close t0 ht01' ht0l hbt0 hbt0p, if_pos hd0]
      have hnn : ∀ x ∈ windowSlice (gainsQ close) w i, 0 ≤ x := fun x hx =>
        gainsQ_nonneg close x (mem_of_mem_windowSlice _ w i x hx)
      have hle := List.single_le_sum hnn _ hmem
      rw [hval] at hle
      linarith
    rw [hLzero, zero_div]
    rw [PFloat.div_num_zero_pos _ (div_pos hGpos hwq)]
    show PFloat.sub (PFloat.num 100)
      (PFloat.div (PFloat.num 100) (PFloat.add (PFloat.num 1) PFloat.pinf)) = _
    rw [PFloat.num_add_pinf, PFloat.num_div_pinf, PFloat.sub_num]
    norm_num
  · intro hwi hi hall hex
    obtain ⟨t0, ht01, ht02, ht0neg⟩ := hex
    have hfull : w ≤ i + 1 := by omega
    rw [rsiAt, avgGain_eq close w i (by omega) hfull hi,
      avgLoss_eq close w i (by omega) hfull hi]
    have hGzero : (windowSlice (gainsQ close) w i).sum = 0 := by
      apply List.sum_eq_zero
      intro x hx
      rw [mem_windowSlice_iff _ w i hfull (by rw [length_gainsQ]; omega)] at hx
      obtain ⟨t, h1, h2, ht, rfl⟩ := hx
      have ht1 : 1 ≤ t := by omega
      have htl : t < close.length := by rw [length_gainsQ] at ht; omega
      rw [gainsQ_getElem_pred close t ht1 htl ht (by omega)]
      have hd := hall t h1 h2
      rw [List.getD_eq_getElem close 0 htl,
        List.getD_eq_getElem close 0 (by omega)] at hd
      rw [if_neg (by linarith)]
    have ht0l : t0 < close.length := by omega
    have ht01' : 1 ≤ t0 := by omega
    have hd0 := ht0neg
    rw [List.getD_eq_getElem close 0 ht0l,
      List.getD_eq_getElem close 0 (by omega)] at hd0
    have hbt0 : t0 < (lossesQ close).length := by rw [length_lossesQ]; omega
    have hbt0p : t0 - 1 < close.length := by omega
    have hLpos : 0 < (windowSlice (lossesQ close) w i).sum := by
      have hmem : (lossesQ close)[t0] ∈ windowSlice (lossesQ close) w i := by
        rw [mem_windowSlice_iff _ w i hfull (by rw [length_lossesQ]; omega)]
        exact ⟨t0, ht01, ht02, by rw [length_lossesQ]; omega, rfl⟩
      have hval : (lossesQ close)[t0] = -(close[t0] - close[t0 - 1]) := by
        rw [lossesQ_getElem_pred close t0 ht01' ht0l hbt0 hbt0p, if_pos hd0]
      have hnn : ∀ x ∈ windowSlice (lossesQ close) w i, 0 ≤ x := fun x hx =>
        lossesQ_nonneg close x (mem_of_mem_windowSlice _ w i x hx)
      have hle := List.single_le_sum hnn _ hmem
      rw [hval] at hle
      linarith
    rw [hGzero, zero_div]
    have hlq : (windowSlice (lossesQ close) w i).sum / (w : ℚ) ≠ 0 :=
      ne_of_gt (div_pos hLpos hwq)
    rw [PFloat.div_num_of_ne _ _ hlq, zero_div, PFloat.add_num,
      PFloat.div_num_of_ne _ _ (by norm_num), PFloat.sub_num]
    norm_num

/-- Witness for C7 on the rising series `[1, 2, 3]` with window `1` at
row `1`: the single delta is `+1`, so RSI is `100`; and the value is a
finite number in `[0, 100]`. -/
theorem rsi_range_and_strict_extremes_witness :
    rsiAt (([1, 2, 3] : List ℚ).map PFloat.num) 1 1 = PFloat.num 100 ∧
    (0 : ℚ) ≤ 100 ∧ (100 : ℚ) ≤ 100 := by
  have h := rsi_range_and_strict_extremes [1, 2, 3] 1 1 (by decide)
  have h100 := h.2.1 (by omega) (by norm_num)
    (by
      intro t h1 h2
      have ht : t = 1 := by omega
      subst ht
      norm_num [List.getD])
    ⟨1, by omega, by omega, by norm_num [List.getD]⟩
  exact ⟨h100, (h.1 100 h100).1, (h.1 100 h100).2⟩

theorem finiteVals?_map_num (l : List ℚ) :
    finiteVals? (l.map PFloat.num) = some l := by
  induction l with
  | nil => rfl
  | cons x rest ih => simp [finiteVals?, ih]

theorem rollingVarF_map_num (l : List ℚ) (w i : Nat) (h2 : 2 ≤ w)
    (hfull : w ≤ i + 1) (hi : i < l.length) :
    rollingVarF (l.map PFloat.num) w i =
      PFloat.num (sampleVar (windowSlice l w i) w) := by
  rw [rollingVarF, if_neg (by simp only [List.length_map]; omega),
    windowSlice_map, finiteVals?_map_num]

theorem rollingVarF_map_num_inv (l : List ℚ) (w i : Nat) (v : ℚ)
    (h : rollingVarF (l.map PFloat.num) w i = PFloat.num v) :
    2 ≤ w ∧ w ≤ i + 1 ∧ i < l.length ∧ v = sampleVar (windowSlice l w i) w := by
  by_cases hc : w < 2 ∨ i + 1 < w ∨ (l.map PFloat.num).length ≤ i
  · rw [rollingVarF, if_pos hc] at h
    cases h
  · push_neg at hc
    rw [List.length_map] at hc
    rw [rollingVarF, if_neg (by simp only [List.length_map]; omega),
      windowSlice_map, finiteVals?_map_num] at h
    have hv : sampleVar (windowSlice l w i) w = v := by injection h
    exact ⟨hc.1, hc.2.1, hc.2.2, hv.symm⟩

theorem sampleVar_nonneg (l : List ℚ) (w : Nat) (h2 : 2 ≤ w) :
    0 ≤ sampleVar l w := by
  apply div_nonneg
  · apply List.sum_nonneg
    intro x hx
    rcases List.mem_map.mp hx with ⟨y, _, rfl⟩
    positivity
  · have : (2 : ℚ) ≤ (w : ℚ) := by exact_mod_cast h2
    linarith

/-- C6 amended (multiplier restricted to `k > 0`): wherever both bands are
defined, `Bollinger_Upper = SMA + k * s` and `Bollinger_Lower = SMA - k * s`
where `s` is the real square root of the sample variance of the trailing `w`
closes with divisor `w - 1`; hence `Lower <= center <= Upper`, with equality
exactly when the variance is zero.  (For `k = 0` the bands coincide with the
centre even at nonzero variance — see the counterexample.) -/
theorem bollinger_band_order_and_spread (close : List ℚ) (w i : Nat) (k : ℚ)
    (hk : 0 < k) (u d : ℝ)
    (hu : bollUpperAt (close.map PFloat.num) w k i = some u)
    (hd : bollLowerAt (close.map PFloat.num) w k i = some d) :
    ∃ m v : ℚ, rollingMeanF (close.map PFloat.num) w i = PFloat.num m ∧
      rollingVarF (close.map PFloat.num) w i = PFloat.num v ∧
      v = sampleVar (windowSlice close w i) w ∧ 0 ≤ v ∧
      u = (m : ℝ) + (k : ℝ) * Real.sqrt (v : ℝ) ∧
      d = (m : ℝ) - (k : ℝ) * Real.sqrt (v : ℝ) ∧
      d ≤ (m : ℝ) ∧ (m : ℝ) ≤ u ∧
      ((u = (m : ℝ)) ↔ v = 0) ∧ ((d = (m : ℝ)) ↔ v = 0) := by
  cases hm : rollingMeanF (close.map PFloat.num) w i with
  | num m =>
    cases hv : rollingVarF (close.map PFloat.num) w i with
    | num v =>
      obtain ⟨h2w, hfull, hi, hveq⟩ := rollingVarF_map_num_inv close w i v hv
      have hu2 : u = (m : ℝ) + (k : ℝ) * Real.sqrt (v : ℝ) := by
        rw [bollUpperAt, hm, hv] at hu
        exact (Option.some.injEq _ _ ▸ hu).symm
      have hd2 : d = (m : ℝ) - (k : ℝ) * Real.sqrt (v : ℝ) := by
        rw [bollLowerAt, hm, hv] at hd
        exact (Option.some.injEq _ _ ▸ hd).symm
      have hvnn : 0 ≤ v := hveq ▸ sampleVar_nonneg _ w h2w
      have hkr : (0 : ℝ) < (k : ℝ) := by exact_mod_cast hk
      have hsnn : 0 ≤ Real.sqrt (v : ℝ) := Real.sqrt_nonneg _
      have hsq : Real.sqrt (v : ℝ) = 0 ↔ v = 0 := by
        rw [Real.sqrt_eq_zero']
        constructor
        · intro h
          have hvr : (0 : ℝ) ≤ (v : ℝ) := by exact_mod_cast hvnn
          have : (v : ℝ) = 0 := le_antisymm h hvr
          exact_mod_cast this
        · intro h
          rw [h]
          norm_num
      refine ⟨m, v, rfl, rfl, hveq, hvnn, hu2, hd2, by nlinarith, by nlinarith,
        ?_, ?_⟩
      · rw [hu2]
        constructor
        · intro h
          have : (k : ℝ) * Real.sqrt (v : ℝ) = 0 := by linarith
          rcases mul_eq_zero.mp this with h1 | h1
          · exact absurd h1 (ne_of_gt hkr)
          · exact hsq.mp h1
        · intro h
          rw [h]
          simp
      · rw [hd2]
        constructor
        · intro h
          have : (k : ℝ) * Real.sqrt (v : ℝ) = 0 := by linarith
          rcases mul_eq_zero.mp this with h1 | h1
          · exact absurd h1 (ne_of_gt hkr)
          · exact hsq.mp h1
        · intro h
          rw [h]
          simp
    | nan => rw [bollUpperAt, hm, hv] at hu; cases hu
    | pinf => rw [bollUpperAt, hm, hv] at hu; cases hu
    | ninf => rw [bollUpperAt, hm, hv] at hu; cases hu
  | nan =>
    rw [bollUpperAt, hm] at hu
    cases hx : rollingVarF (close.map PFloat.num) w i <;> rw [hx] at hu <;> cases hu
  | pinf =>
    rw [bollUpperAt, hm] at hu
    cases hx : rollingVarF (close.map PFloat.num) w i <;> rw [hx] at hu <;> cases hu
  | ninf =>
    rw [bollUpperAt, hm] at hu
    cases hx : rollingVarF (close.map PFloat.num) w i <;> rw [hx] at hu <;> cases hu

/-- C6 counterexample to the claim as stated (which quantifies over every
multiplier `k`): with `Close = [1, 2]`, `w = 2`, `k = 0`, at row `1` both the
mean (`3/2`) and the sample variance (`1/2`) are defined, the upper band
equals the centre, yet the standard deviation `sqrt(1/2)` is nonzero — so
"equality only when s = 0" fails at `k = 0`. -/
theorem bollinger_zero_multiplier_counterexample :
    rollingMeanF (([1, 2] : List ℚ).map PFloat.num) 2 1 = PFloat.num (3 / 2) ∧
    rollingVarF (([1, 2] : List ℚ).map PFloat.num) 2 1 = PFloat.num (1 / 2) ∧
    bollUpperAt (([1, 2] : List ℚ).map PFloat.num) 2 (0 : ℚ) 1 =
      some (((3 / 2 : ℚ) : ℝ)) ∧
    Real.sqrt (((1 / 2 : ℚ) : ℝ)) ≠ 0 := by
  have hm : rollingMeanF (([1, 2] : List ℚ).map PFloat.num) 2 1 =
      PFloat.num (3 / 2) := by
    rw [rollingMeanF_map_num [1, 2] 2 1 (by norm_num) (by norm_num) (by norm_num)]
    congr 1
    norm_num [windowSlice]
  have hv : rollingVarF (([1, 2] : List ℚ).map PFloat.num) 2 1 =
      PFloat.num (1 / 2) := by
    rw [rollingVarF_map_num [1, 2] 2 1 (by norm_num) (by norm_num) (by norm_num)]
    congr 1
    norm_num [sampleVar, windowSlice]
  refine ⟨hm, hv, ?_, ?_⟩
  · rw [bollUpperAt, hm, hv]
    norm_num
  · rw [Real.sqrt_ne_zero']
    exact_mod_cast (by norm_num : (0 : ℚ) < 1 / 2)

/-- Witness for the amended C6 on the constant series `[4, 4]` with `w = 2`,
`k = 2`, row `1` (variance `0`, both bands equal to the centre `4`). -/
theorem bollinger_band_order_and_spread_witness :
    ∃ m v : ℚ,
      rollingMeanF (([4, 4] : List ℚ).map PFloat.num) 2 1 = PFloat.num m ∧
      rollingVarF (([4, 4] : List ℚ).map PFloat.num) 2 1 = PFloat.num v ∧
      v = sampleVar (windowSlice ([4, 4] : List ℚ) 2 1) 2 ∧ 0 ≤ v ∧
      ((4 : ℚ) : ℝ) = (m : ℝ) + ((2 : ℚ) : ℝ) * Real.sqrt (v : ℝ) ∧
      ((4 : ℚ) : ℝ) = (m : ℝ) - ((2 : ℚ) : ℝ) * Real.sqrt (v : ℝ) ∧
      ((4 : ℚ) : ℝ) ≤ (m : ℝ) ∧ (m : ℝ) ≤ ((4 : ℚ) : ℝ) ∧
      ((((4 : ℚ) : ℝ) = (m : ℝ)) ↔ v = 0) ∧
      ((((4 : ℚ) : ℝ) = (m : ℝ)) ↔ v = 0) := by
  have hm : rollingMeanF (([4, 4] : List ℚ).map PFloat.num) 2 1 =
      PFloat.num 4 := by
    rw [rollingMeanF_map_num [4, 4] 2 1 (by norm_num) (by norm_num) (by norm_num)]
    congr 1
    norm_num [windowSlice]
  have hv : rollingVarF (([4, 4] : List ℚ).map PFloat.num) 2 1 =
      PFloat.num 0 := by
    rw [rollingVarF_map_num [4, 4] 2 1 (by norm_num) (by norm_num) (by norm_num)]
    congr 1
    norm_num [sampleVar, windowSlice]
  have hu : bollUpperAt (([4, 4] : List ℚ).map PFloat.num) 2 (2 : ℚ) 1 =
      some (((4 : ℚ) : ℝ)) := by
    rw [bollUpperAt, hm, hv]
    norm_num
  have hd : bollLowerAt (([4, 4] : List ℚ).map PFloat.num) 2 (2 : ℚ) 1 =
      some (((4 : ℚ) : ℝ)) := by
    rw [bollLowerAt, hm, hv]
    norm_num
  exact bollinger_band_order_and_spread [4, 4] 2 1 2 (by norm_num)
    (((4 : ℚ) : ℝ)) (((4 : ℚ) : ℝ)) hu hd

/-! ## Table-level lemmas -/

theorem find?_setCol (l : List (ColName × Col)) (c c' : ColName) (v : Col) :
    (List.find? (fun p => p.1 = c') (setCol l c v)).map Prod.snd =
      if c' = c then some v
      else (List.find? (fun p => p.1 = c') l).map Prod.snd := by
  induction l with
  | nil =>
    simp only [setCol]
    by_cases h : c' = c
    · rw [if_pos h, List.find?_cons_of_pos _ (by simp [h])]
      rfl
    · rw [if_neg h, List.find?_cons_of_neg _ (by
        simp only [decide_eq_true_eq]
        exact fun he => h he.symm)]
  | cons p rest ih =>
    obtain ⟨c0, v0⟩ := p
    simp only [setCol]
    by_cases h0 : c0 = c
    · rw [if_pos h0]
      by_cases h : c' = c
      · rw [if_pos h, List.find?_cons_of_pos _ (by simp [h])]
        rfl
      · rw [if_neg h,
          List.find?_cons_of_neg _ (by
            simp only [decide_eq_true_eq]
            exact fun he => h he.symm),
          List.find?_cons_of_neg _ (by
            simp only [decide_eq_true_eq]
            exact fun he => h (h0.symm.trans he).symm)]
    · rw [if_neg h0]
      by_cases h : c' = c0
      · have hcc : c' ≠ c := fun he => h0 (h.symm.trans he)
        rw [if_neg hcc, List.find?_cons_of_pos _ (by simp [h]),
          List.find?_cons_of_pos _ (by simp [h])]
      · rw [List.find?_cons_of_neg _ (by
            simp only [decide_eq_true_eq]
            exact fun he => h he.symm), ih,
          List.find?_cons_of_neg _ (by
            simp only [decide_eq_true_eq]
            exact fun he => h he.symm)]

theorem dfGet_dfSet (df : DataFrame) (c c' : ColName) (v : Col) :
    dfGet (dfSet df c v) c' = if c' = c then some v else dfGet df c' := by
  show (List.find? (fun p => p.1 = c') (setCol df.cols c v)).map Prod.snd = _
  rw [find?_setCol]
  rfl

theorem index_dfSet (df : DataFrame) (c : ColName) (v : Col) :
    (dfSet df c v).index = df.index := rfl

theorem readCol_dfSet_same (df : DataFrame) (c : ColName) (v : Col) :
    readCol (dfSet df c v) c = Except.ok v := by
  rw [readCol, dfGet_dfSet, if_pos rfl]

theorem readCol_dfSet_ne (df : DataFrame) (c c' : ColName) (v : Col)
    (h : c' ≠ c) : readCol (dfSet df c v) c' = readCol df c' := by
  rw [readCol, dfGet_dfSet, if_neg h, readCol]

theorem readCol_eq_ok_iff (df : DataFrame) (c : ColName) (v : Col) :
    readCol df c = Except.ok v ↔ dfGet df c = some v := by
  rw [readCol]
  cases h : dfGet df c
  · simp
  · simp

theorem calculate_sma_eq (w : Nat) (df : DataFrame) :
    calculate_sma w df =
      match dfGet df ColName.cclose with
      | none => Except.error (PyErr.keyError ColName.cclose)
      | some cl =>
        Except.ok (dfSet df (ColName.csma w) (Col.fs (smaSeries cl.toF w))) := by
  cases h : dfGet df ColName.cclose <;>
    simp [calculate_sma, readCol, h, Bind.bind, Except.bind, Pure.pure, Except.pure]

theorem calculate_ema_eq (w : Nat) (df : DataFrame) :
    calculate_ema w df =
      match dfGet df ColName.cclose with
      | none => Except.error (PyErr.keyError ColName.cclose)
      | some cl =>
        Except.ok (dfSet df (ColName.cema w) (Col.fs (emaSeries cl.toF w))) := by
  cases h : dfGet df ColName.cclose <;>
    simp [calculate_ema, readCol, h, Bind.bind, Except.bind, Pure.pure, Except.pure]

theorem calculate_rsi_eq (w : Nat) (df : DataFrame) :
    calculate_rsi w df =
      match dfGet df ColName.cclose with
      | none => Except.error (PyErr.keyError ColName.cclose)
      | some cl =>
        Except.ok (dfSet df ColName.crsi (Col.fs (rsiSeries cl.toF w))) := by
  cases h : dfGet df ColName.cclose <;>
    simp [calculate_rsi, readCol, h, Bind.bind, Except.bind, Pure.pure, Except.pure]

theorem calculate_stoch_eq (kw dw : Nat) (df : DataFrame) :
    calculate_stochastic_oscillator kw dw df =
      match dfGet df ColName.clow, dfGet df ColName.chigh,
          dfGet df ColName.cclose with
      | none, _, _ => Except.error (PyErr.keyError ColName.clow)
      | some _, none, _ => Except.error (PyErr.keyError ColName.chigh)
      | some _, some _, none => Except.error (PyErr.keyError ColName.cclose)
      | some lo, some hi, some cl =>
        Except.ok (dfSet
          (dfSet df ColName.ckpct (Col.fs (pctKSeries hi.toF lo.toF cl.toF kw)))
          ColName.cdpct
          (Col.fs (pctDSeries (pctKSeries hi.toF lo.toF cl.toF kw) dw))) := by
  cases hl : dfGet df ColName.clow <;>
    cases hh : dfGet df ColName.chigh <;>
    cases hc : dfGet df ColName.cclose <;>
    simp [calculate_stochastic_oscillator, readCol, hl, hh, hc, Bind.bind,
      Except.bind, Pure.pure, Except.pure, dfGet_dfSet, Col.toF]

theorem calculate_macd_eq (s l g : Nat) (df : DataFrame) :
    calculate_macd s l g df =
      match dfGet df ColName.cclose with
      | none => Except.error (PyErr.keyError ColName.cclose)
      | some cl =>
        Except.ok (dfSet
          (dfSet df ColName.cmacd (Col.fs (macdSeries cl.toF s l)))
          ColName.cmacdSig
          (Col.fs (ewmMeanF g (macdSeries cl.toF s l)))) := by
  cases h : dfGet df ColName.cclose <;>
    simp [calculate_macd, readCol, h, Bind.bind, Except.bind, Pure.pure, Except.pure, dfGet_dfSet, Col.toF]

theorem calculate_boll_eq (w : Nat) (k : ℚ) (df : DataFrame) :
    calculate_bollinger_bands w k df =
      match dfGet df ColName.cclose with
      | none => Except.error (PyErr.keyError ColName.cclose)
      | some cl =>
        Except.ok (dfSet
          (dfSet df ColName.cbollUp (Col.rs (bollUpperSeries cl.toF w k)))
          ColName.cbollLo (Col.rs (bollLowerSeries cl.toF w k))) := by
  cases h : dfGet df ColName.cclose <;>
    simp [calculate_bollinger_bands, readCol, h, Bind.bind, Except.bind, Pure.pure, Except.pure]

/-- Two DataFrames agree observationally: same index (hence same rows in the
same order) and the same answer for every column lookup.  (Invoking two
indicator computations in either order appends the new columns in a different
physical position, which pandas also does; the observable content is what the
per-column reads return.) -/
def EquivDF (d1 d2 : DataFrame) : Prop :=
  d1.index = d2.index ∧ ∀ c, dfGet d1 c = dfGet d2 c

/-- Observational agreement of two computation results: identical errors, or
observationally equal DataFrames. -/
def EquivRes : Except PyErr DataFrame → Except PyErr DataFrame → Prop
  | Except.error e1, Except.error e2 => e1 = e2
  | Except.ok d1, Except.ok d2 => EquivDF d1 d2
  | _, _ => False

@[simp] theorem equivRes_error_error (e1 e2 : PyErr) :
    EquivRes (Except.error e1) (Except.error e2) ↔ e1 = e2 := Iff.rfl

@[simp] theorem equivRes_ok_ok (d1 d2 : DataFrame) :
    EquivRes (Except.ok d1) (Except.ok d2) ↔ EquivDF d1 d2 := Iff.rfl

theorem dfGet_dfSet_same (df : DataFrame) (c : ColName) (v : Col) :
    dfGet (dfSet df c v) c = some v := by
  rw [dfGet_dfSet, if_pos rfl]

theorem dfGet_dfSet_ne (df : DataFrame) (c c' : ColName) (v : Col)
    (h : c' ≠ c) : dfGet (dfSet df c v) c' = dfGet df c' := by
  rw [dfGet_dfSet, if_neg h]

theorem equivDF_comm_11 (df : DataFrame) (a b : ColName) (x y : Col)
    (hab : a ≠ b) :
    EquivDF (dfSet (dfSet df a x) b y) (dfSet (dfSet df b y) a x) := by
  refine ⟨rfl, fun c => ?_⟩
  simp only [dfGet_dfSet]
  split_ifs <;> simp_all

theorem equivDF_comm_12 (df : DataFrame) (a b1 b2 : ColName) (x y1 y2 : Col)
    (h1 : a ≠ b1) (h2 : a ≠ b2) :
    EquivDF (dfSet (dfSet (dfSet df a x) b1 y1) b2 y2)
      (dfSet (dfSet (dfSet df b1 y1) b2 y2) a x) := by
  refine ⟨rfl, fun c => ?_⟩
  simp only [dfGet_dfSet]
  split_ifs <;> simp_all

theorem equivDF_comm_22 (df : DataFrame) (a1 a2 b1 b2 : ColName)
    (x1 x2 y1 y2 : Col) (h11 : a1 ≠ b1) (h12 : a1 ≠ b2) (h21 : a2 ≠ b1)
    (h22 : a2 ≠ b2) :
    EquivDF (dfSet (dfSet (dfSet (dfSet df a1 x1) a2 x2) b1 y1) b2 y2)
      (dfSet (dfSet (dfSet (dfSet df b1 y1) b2 y2) a1 x1) a2 x2) := by
  refine ⟨rfl, fun c => ?_⟩
  simp only [dfGet_dfSet]
  split_ifs <;> simp_all

theorem comm_sma_ema (w v : Nat) (df : DataFrame) :
    EquivRes ((calculate_sma w df).bind (calculate_ema v))
      ((calculate_ema v df).bind (calculate_sma w)) := by
  cases h : dfGet df ColName.cclose with
  | none =>
    rw [calculate_sma_eq, calculate_ema_eq, h]
    rfl
  | some cl =>
    rw [calculate_sma_eq, calculate_ema_eq, h]
    show EquivRes (calculate_ema v _) (calculate_sma w _)
    rw [calculate_ema_eq, calculate_sma_eq,
      dfGet_dfSet_ne _ _ _ _ (by simp), dfGet_dfSet_ne _ _ _ _ (by simp), h]
    exact equivDF_comm_11 df _ _ _ _ (by simp)

theorem comm_sma_rsi (w v : Nat) (df : DataFrame) :
    EquivRes ((calculate_sma w df).bind (calculate_rsi v))
      ((calculate_rsi v df).bind (calculate_sma w)) := by
  cases h : dfGet df ColName.cclose with
  | none =>
    rw [calculate_sma_eq, calculate_rsi_eq, h]
    rfl
  | some cl =>
    rw [calculate_sma_eq, calculate_rsi_eq, h]
    show EquivRes (calculate_rsi v _) (calculate_sma w _)
    rw [calculate_rsi_eq, calculate_sma_eq,
      dfGet_dfSet_ne _ _ _ _ (by simp), dfGet_dfSet_ne _ _ _ _ (by simp), h]
    exact equivDF_comm_11 df _ _ _ _ (by simp)

theorem comm_ema_rsi (w v : Nat) (df : DataFrame) :
    EquivRes ((calculate_ema w df).bind (calculate_rsi v))
      ((calculate_rsi v df).bind (calculate_ema w)) := by
  cases h : dfGet df ColName.cclose with
  | none =>
    rw [calculate_ema_eq, calculate_rsi_eq, h]
    rfl
  | some cl =>
    rw [calculate_ema_eq, calculate_rsi_eq, h]
    show EquivRes (calculate_rsi v _) (calculate_ema w _)
    rw [calculate_rsi_eq, calculate_ema_eq,
      dfGet_dfSet_ne _ _ _ _ (by simp), dfGet_dfSet_ne _ _ _ _ (by simp), h]
    exact equivDF_comm_11 df _ _ _ _ (by simp)

theorem comm_sma_macd (w s l g : Nat) (df : DataFrame) :
    EquivRes ((calculate_sma w df).bind (calculate_macd s l g))
      ((calculate_macd s l g df).bind (calculate_sma w)) := by
  cases h : dfGet df ColName.cclose with
  | none =>
    rw [calculate_sma_eq, calculate_macd_eq, h]
    rfl
  | some cl =>
    rw [calculate_sma_eq, calculate_macd_eq, h]
    show EquivRes (calculate_macd s l g _) (calculate_sma w _)
    rw [calculate_macd_eq, calculate_sma_eq,
      dfGet_dfSet_ne _ _ _ _ (by simp), dfGet_dfSet_ne _ _ _ _ (by simp),
      dfGet_dfSet_ne _ _ _ _ (by simp), h]
    exact equivDF_comm_12 df _ _ _ _ _ _ (by simp) (by simp)

theorem comm_ema_macd (w s l g : Nat) (df : DataFrame) :
    EquivRes ((calculate_ema w df).bind (calculate_macd s l g))
      ((calculate_macd s l g df).bind (calculate_ema w)) := by
  cases h : dfGet df ColName.cclose with
  | none =>
    rw [calculate_ema_eq, calculate_macd_eq, h]
    rfl
  | some cl =>
    rw [calculate_ema_eq, calculate_macd_eq, h]
    show EquivRes (calculate_macd s l g _) (calculate_ema w _)
    rw [calculate_macd_eq, calculate_ema_eq,
      dfGet_dfSet_ne _ _ _ _ (by simp), dfGet_dfSet_ne _ _ _ _ (by simp),
      dfGet_dfSet_ne _ _ _ _ (by simp), h]
    exact equivDF_comm_12 df _ _ _ _ _ _ (by simp) (by simp)

theorem comm_rsi_macd (v s l g : Nat) (df : DataFrame) :
    EquivRes ((calculate_rsi v df).bind (calculate_macd s l g))
      ((calculate_macd s l g df).bind (calculate_rsi v)) := by
  cases h : dfGet df ColName.cclose with
  | none =>
    rw [calculate_rsi_eq, calculate_macd_eq, h]
    rfl
  | some cl =>
    rw [calculate_rsi_eq, calculate_macd_eq, h]
    show EquivRes (calculate_macd s l g _) (calculate_rsi v _)
    rw [calculate_macd_eq, calculate_rsi_eq,
      dfGet_dfSet_ne _ _ _ _ (by simp), dfGet_dfSet_ne _ _ _ _ (by simp),
      dfGet_dfSet_ne _ _ _ _ (by simp), h]
    exact equivDF_comm_12 df _ _ _ _ _ _ (by simp) (by simp)

theorem comm_sma_boll (w bw : Nat) (k : ℚ) (df : DataFrame) :
    EquivRes ((calculate_sma w df).bind (calculate_bollinger_bands bw k))
      ((calculate_bollinger_bands bw k df).bind (calculate_sma w)) := by
  cases h : dfGet df ColName.cclose with
  | none =>
    rw [calculate_sma_eq, calculate_boll_eq, h]
    rfl
  | some cl =>
    rw [calculate_sma_eq, calculate_boll_eq, h]
    show EquivRes (calculate_bollinger_bands bw k _) (calculate_sma w _)
    rw [calculate_boll_eq, calculate_sma_eq,
      dfGet_dfSet_ne _ _ _ _ (by simp), dfGet_dfSet_ne _ _ _ _ (by simp),
      dfGet_dfSet_ne _ _ _ _ (by simp), h]
    exact equivDF_comm_12 df _ _ _ _ _ _ (by simp) (by simp)

theorem comm_ema_boll (w bw : Nat) (k : ℚ) (df : DataFrame) :
    EquivRes ((calculate_ema w df).bind (calculate_bollinger_bands bw k))
      ((calculate_bollinger_bands bw k df).bind (calculate_ema w)) := by
  cases h : dfGet df ColName.cclose with
  | none =>
    rw [calculate_ema_eq, calculate_boll_eq, h]
    rfl
  | some cl =>
    rw [calculate_ema_eq, calculate_boll_eq, h]
    show EquivRes (calculate_bollinger_bands bw k _) (calculate_ema w _)
    rw [calculate_boll_eq, calculate_ema_eq,
      dfGet_dfSet_ne _ _ _ _ (by simp), dfGet_dfSet_ne _ _ _ _ (by simp),
      dfGet_dfSet_ne _ _ _ _ (by simp), h]
    exact equivDF_comm_12 df _ _ _ _ _ _ (by simp) (by simp)

theorem comm_rsi_boll (v bw : Nat) (k : ℚ) (df : DataFrame) :
    EquivRes ((calculate_rsi v df).bind (calculate_bollinger_bands bw k))
      ((calculate_bollinger_bands bw k df).bind (calculate_rsi v)) := by
  cases h : dfGet df ColName.cclose with
  | none =>
    rw [calculate_rsi_eq, calculate_boll_eq, h]
    rfl
  | some cl =>
    rw [calculate_rsi_eq, calculate_boll_eq, h]
    show EquivRes (calculate_bollinger_bands bw k _) (calculate_rsi v _)
    rw [calculate_boll_eq, calculate_rsi_eq,
      dfGet_dfSet_ne _ _ _ _ (by simp), dfGet_dfSet_ne _ _ _ _ (by simp),
      dfGet_dfSet_ne _ _ _ _ (by simp), h]
    exact equivDF_comm_12 df _ _ _ _ _ _ (by simp) (by simp)

theorem comm_macd_boll (s l g bw : Nat) (k : ℚ) (df : DataFrame) :
    EquivRes ((calculate_macd s l g df).bind (calculate_bollinger_bands bw k))
      ((calculate_bollinger_bands bw k df).bind (calculate_macd s l g)) := by
  cases h : dfGet df ColName.cclose with
  | none =>
    rw [calculate_macd_eq, calculate_boll_eq, h]
    rfl
  | some cl =>
    rw [calculate_macd_eq, calculate_boll_eq, h]
    show EquivRes (calculate_bollinger_bands bw k _) (calculate_macd s l g _)
    rw [calculate_boll_eq, calculate_macd_eq,
      dfGet_dfSet_ne _ _ _ _ (by simp), dfGet_dfSet_ne _ _ _ _ (by simp),
      dfGet_dfSet_ne _ _ _ _ (by simp), dfGet_dfSet_ne _ _ _ _ (by simp), h]
    exact equivDF_comm_22 df _ _ _ _ _ _ _ _ (by simp) (by simp) (by simp)
      (by simp)

theorem comm_sma_stoch (w kw dw : Nat) (df : DataFrame) (lo hi cl : Col)
    (hl : dfGet df ColName.clow = some lo)
    (hh : dfGet df ColName.chigh = some hi)
    (hc : dfGet df ColName.cclose = some cl) :
    EquivRes ((calculate_sma w df).bind (calculate_stochastic_oscillator kw dw))
      ((calculate_stochastic_oscillator kw dw df).bind (calculate_sma w)) := by
  rw [calculate_sma_eq, calculate_stoch_eq, hc, hl, hh]
  show EquivRes (calculate_stochastic_oscillator kw dw _) (calculate_sma w _)
  rw [calculate_stoch_eq, calculate_sma_eq,
    dfGet_dfSet_ne _ _ _ _ (by simp), dfGet_dfSet_ne _ _ _ _ (by simp),
    dfGet_dfSet_ne _ _ _ _ (by simp), dfGet_dfSet_ne _ _ _ _ (by simp),
    dfGet_dfSet_ne _ _ _ _ (by simp), hl, hh, hc]
  exact equivDF_comm_12 df _ _ _ _ _ _ (by simp) (by simp)

theorem comm_ema_stoch (w kw dw : Nat) (df : DataFrame) (lo hi cl : Col)
    (hl : dfGet df ColName.clow = some lo)
    (hh : dfGet df ColName.chigh = some hi)
    (hc : dfGet df ColName.cclose = some cl) :
    EquivRes ((calculate_ema w df).bind (calculate_stochastic_oscillator kw dw))
      ((calculate_stochastic_oscillator kw dw df).bind (calculate_ema w)) := by
  rw [calculate_ema_eq, calculate_stoch_eq, hc, hl, hh]
  show EquivRes (calculate_stochastic_oscillator kw dw _) (calculate_ema w _)
  rw [calculate_stoch_eq, calculate_ema_eq,
    dfGet_dfSet_ne _ _ _ _ (by simp), dfGet_dfSet_ne _ _ _ _ (by simp),
    dfGet_dfSet_ne _ _ _ _ (by simp), dfGet_dfSet_ne _ _ _ _ (by simp),
    dfGet_dfSet_ne _ _ _ _ (by simp), hl, hh, hc]
  exact equivDF_comm_12 df _ _ _ _ _ _ (by simp) (by simp)

theorem comm_rsi_stoch (v kw dw : Nat) (df : DataFrame) (lo hi cl : Col)
    (hl : dfGet df ColName.clow = some lo)
    (hh : dfGet df ColName.chigh = some hi)
    (hc : dfGet df ColName.cclose = some cl) :
    EquivRes ((calculate_rsi v df).bind (calculate_stochastic_oscillator kw dw))
      ((calculate_stochastic_oscillator kw dw df).bind (calculate_rsi v)) := by
  rw [calculate_rsi_eq, calculate_stoch_eq, hc, hl, hh]
  show EquivRes (calculate_stochastic_oscillator kw dw _) (calculate_rsi v _)
  rw [calculate_stoch_eq, calculate_rsi_eq,
    dfGet_dfSet_ne _ _ _ _ (by simp), dfGet_dfSet_ne _ _ _ _ (by simp),
    dfGet_dfSet_ne _ _ _ _ (by simp), dfGet_dfSet_ne _ _ _ _ (by simp),
    dfGet_dfSet_ne _ _ _ _ (by simp), hl, hh, hc]
  exact equivDF_comm_12 df _ _ _ _ _ _ (by simp) (by simp)

theorem comm_stoch_macd (kw dw s l g : Nat) (df : DataFrame) (lo hi cl : Col)
    (hl : dfGet df ColName.clow = some lo)
    (hh : dfGet df ColName.chigh = some hi)
    (hc : dfGet df ColName.cclose = some cl) :
    EquivRes ((calculate_stochastic_oscillator kw dw df).bind (calculate_macd s l g))
      ((calculate_macd s l g df).bind (calculate_stochastic_oscillator kw dw)) := by
  rw [calculate_stoch_eq, calculate_macd_eq, hc, hl, hh]
  show EquivRes (calculate_macd s l g _) (calculate_stochastic_oscillator kw dw _)
  rw [calculate_macd_eq, calculate_stoch_eq,
    dfGet_dfSet_ne _ _ _ _ (by simp), dfGet_dfSet_ne _ _ _ _ (by simp),
    dfGet_dfSet_ne _ _ _ _ (by simp), dfGet_dfSet_ne _ _ _ _ (by simp),
    dfGet_dfSet_ne _ _ _ _ (by simp), dfGet_dfSet_ne _ _ _ _ (by simp),
    dfGet_dfSet_ne _ _ _ _ (by simp), dfGet_dfSet_ne _ _ _ _ (by simp),
    hc, hl, hh]
  exact equivDF_comm_22 df _ _ _ _ _ _ _ _ (by simp) (by simp) (by simp)
    (by simp)

theorem comm_stoch_boll (kw dw bw : Nat) (k : ℚ) (df : DataFrame) (lo hi cl : Col)
    (hl : dfGet df ColName.clow = some lo)
    (hh : dfGet df ColName.chigh = some hi)
    (hc : dfGet df ColName.cclose = some cl) :
    EquivRes
      ((calculate_stochastic_oscillator kw dw df).bind (calculate_bollinger_bands bw k))
      ((calculate_bollinger_bands bw k df).bind (calculate_stochastic_oscillator kw dw)) := by
  rw [calculate_stoch_eq, calculate_boll_eq, hc, hl, hh]
  show EquivRes (calculate_bollinger_bands bw k _)
    (calculate_stochastic_oscillator kw dw _)
  rw [calculate_boll_eq, calculate_stoch_eq,
    dfGet_dfSet_ne _ _ _ _ (by simp), dfGet_dfSet_ne _ _ _ _ (by simp),
    dfGet_dfSet_ne _ _ _ _ (by simp), dfGet_dfSet_ne _ _ _ _ (by simp),
    dfGet_dfSet_ne _ _ _ _ (by simp), dfGet_dfSet_ne _ _ _ _ (by simp),
    dfGet_dfSet_ne _ _ _ _ (by simp), dfGet_dfSet_ne _ _ _ _ (by simp),
    hc, hl, hh]
  exact equivDF_comm_22 df _ _ _ _ _ _ _ _ (by simp) (by simp) (by simp)
    (by simp)

theorem frame_sma (w : Nat) (df d' : DataFrame)
    (h : calculate_sma w df = Except.ok d') :
    d'.index = df.index ∧
    ∀ c, c ≠ ColName.csma w → dfGet d' c = dfGet df c := by
  rw [calculate_sma_eq] at h
  cases hc : dfGet df ColName.cclose <;> rw [hc] at h
  · cases h
  · cases h
    exact ⟨rfl, fun c hne => dfGet_dfSet_ne _ _ _ _ hne⟩

theorem frame_ema (w : Nat) (df d' : DataFrame)
    (h : calculate_ema w df = Except.ok d') :
    d'.index = df.index ∧
    ∀ c, c ≠ ColName.cema w → dfGet d' c = dfGet df c := by
  rw [calculate_ema_eq] at h
  cases hc : dfGet df ColName.cclose <;> rw [hc] at h
  · cases h
  · cases h
    exact ⟨rfl, fun c hne => dfGet_dfSet_ne _ _ _ _ hne⟩

theorem frame_rsi (w : Nat) (df d' : DataFrame)
    (h : calculate_rsi w df = Except.ok d') :
    d'.index = df.index ∧
    ∀ c, c ≠ ColName.crsi → dfGet d' c = dfGet df c := by
  rw [calculate_rsi_eq] at h
  cases hc : dfGet df ColName.cclose <;> rw [hc] at h
  · cases h
  · cases h
    exact ⟨rfl, fun c hne => dfGet_dfSet_ne _ _ _ _ hne⟩

theorem frame_stoch (kw dw : Nat) (df d' : DataFrame)
    (h : calculate_stochastic_oscillator kw dw df = Except.ok d') :
    d'.index = df.index ∧
    ∀ c, c ≠ ColName.ckpct → c ≠ ColName.cdpct →
      dfGet d' c = dfGet df c := by
  rw [calculate_stoch_eq] at h
  cases hl : dfGet df ColName.clow <;> rw [hl] at h
  · cases h
  · cases hh : dfGet df ColName.chigh <;> rw [hh] at h
    · cases h
    · cases hc : dfGet df ColName.cclose <;> rw [hc] at h
      · cases h
      · cases h
        refine ⟨rfl, fun c hk hd => ?_⟩
        rw [dfGet_dfSet_ne _ _ _ _ hd, dfGet_dfSet_ne _ _ _ _ hk]

theorem frame_macd (s l g : Nat) (df d' : DataFrame)
    (h : calculate_macd s l g df = Except.ok d') :
    d'.index = df.index ∧
    ∀ c, c ≠ ColName.cmacd → c ≠ ColName.cmacdSig →
      dfGet d' c = dfGet df c := by
  rw [calculate_macd_eq] at h
  cases hc : dfGet df ColName.cclose <;> rw [hc] at h
  · cases h
  · cases h
    refine ⟨rfl, fun c hm hs => ?_⟩
    rw [dfGet_dfSet_ne _ _ _ _ hs, dfGet_dfSet_ne _ _ _ _ hm]

theorem frame_boll (w : Nat) (k : ℚ) (df d' : DataFrame)
    (h : calculate_bollinger_bands w k df = Except.ok d') :
    d'.index = df.index ∧
    ∀ c, c ≠ ColName.cbollUp → c ≠ ColName.cbollLo →
      dfGet d' c = dfGet df c := by
  rw [calculate_boll_eq] at h
  cases hc : dfGet df ColName.cclose <;> rw [hc] at h
  · cases h
  · cases h
    refine ⟨rfl, fun c hu hd => ?_⟩
    rw [dfGet_dfSet_ne _ _ _ _ hd, dfGet_dfSet_ne _ _ _ _ hu]

/-- C9: every indicator computation that succeeds leaves the date index (row
set and order) unchanged and alters no column other than its own declared
derived column(s); consequently any two distinct indicator computations can
be invoked in either order with observationally equal results — identical
per-column contents and index (physical column insertion position aside).
For pairs involving the stochastic oscillator the commutation is stated on
tables that contain the required `Low`/`High`/`Close` input columns, so that
both orders perform the computation. -/
theorem indicator_frame_and_order_independence :
    (∀ w df d', calculate_sma w df = Except.ok d' →
      d'.index = df.index ∧
      ∀ c, c ≠ ColName.csma w → dfGet d' c = dfGet df c) ∧
    (∀ w df d', calculate_ema w df = Except.ok d' →
      d'.index = df.index ∧
      ∀ c, c ≠ ColName.cema w → dfGet d' c = dfGet df c) ∧
    (∀ w df d', calculate_rsi w df = Except.ok d' →
      d'.index = df.index ∧
      ∀ c, c ≠ ColName.crsi → dfGet d' c = dfGet df c) ∧
    (∀ kw dw df d', calculate_stochastic_oscillator kw dw df = Except.ok d' →
      d'.index = df.index ∧
      ∀ c, c ≠ ColName.ckpct → c ≠ ColName.cdpct →
        dfGet d' c = dfGet df c) ∧
    (∀ s l g df d', calculate_macd s l g df = Except.ok d' →
      d'.index = df.index ∧
      ∀ c, c ≠ ColName.cmacd → c ≠ ColName.cmacdSig →
        dfGet d' c = dfGet df c) ∧
    (∀ w k df d', calculate_bollinger_bands w k df = Except.ok d' →
      d'.index = df.index ∧
      ∀ c, c ≠ ColName.cbollUp → c ≠ ColName.cbollLo →
        dfGet d' c = dfGet df c) ∧
    (∀ w v df, EquivRes ((calculate_sma w df).bind (calculate_ema v))
      ((calculate_ema v df).bind (calculate_sma w))) ∧
    (∀ w v df, EquivRes ((calculate_sma w df).bind (calculate_rsi v))
      ((calculate_rsi v df).bind (calculate_sma w))) ∧
    (∀ w v df, EquivRes ((calculate_ema w df).bind (calculate_rsi v))
      ((calculate_rsi v df).bind (calculate_ema w))) ∧
    (∀ w s l g df, EquivRes ((calculate_sma w df).bind (calculate_macd s l g))
      ((calculate_macd s l g df).bind (calculate_sma w))) ∧
    (∀ w s l g df, EquivRes ((calculate_ema w df).bind (calculate_macd s l g))
      ((calculate_macd s l g df).bind (calculate_ema w))) ∧
    (∀ v s l g df, EquivRes ((calculate_rsi v df).bind (calculate_macd s l g))
      ((calculate_macd s l g df).bind (calculate_rsi v))) ∧
    (∀ w bw k df, EquivRes
      ((calculate_sma w df).bind (calculate_bollinger_bands bw k))
      ((calculate_bollinger_bands bw k df).bind (calculate_sma w))) ∧
    (∀ w bw k df, EquivRes
      ((calculate_ema w df).bind (calculate_bollinger_bands bw k))
      ((calculate_bollinger_bands bw k df).bind (calculate_ema w))) ∧
    (∀ v bw k df, EquivRes
      ((calculate_rsi v df).bind (calculate_bollinger_bands bw k))
      ((calculate_bollinger_bands bw k df).bind (calculate_rsi v))) ∧
    (∀ s l g bw k df, EquivRes
      ((calculate_macd s l g df).bind (calculate_bollinger_bands bw k))
      ((calculate_bollinger_bands bw k df).bind (calculate_macd s l g))) ∧
    (∀ w kw dw df lo hi cl, dfGet df ColName.clow = some lo →
      dfGet df ColName.chigh = some hi → dfGet df ColName.cclose = some cl →
      EquivRes ((calculate_sma w df).bind (calculate_stochastic_oscillator kw dw))
        ((calculate_stochastic_oscillator kw dw df).bind (calculate_sma w))) ∧
    (∀ w kw dw df lo hi cl, dfGet df ColName.clow = some lo →
      dfGet df ColName.chigh = some hi → dfGet df ColName.cclose = some cl →
      EquivRes ((calculate_ema w df).bind (calculate_stochastic_oscillator kw dw))
        ((calculate_stochastic_oscillator kw dw df).bind (calculate_ema w))) ∧
    (∀ v kw dw df lo hi cl, dfGet df ColName.clow = some lo →
      dfGet df ColName.chigh = some hi → dfGet df ColName.cclose = some cl →
      EquivRes ((calculate_rsi v df).bind (calculate_stochastic_oscillator kw dw))
        ((calculate_stochastic_oscillator kw dw df).bind (calculate_rsi v))) ∧
    (∀ kw dw s l g df lo hi cl, dfGet df ColName.clow = some lo →
      dfGet df ColName.chigh = some hi → dfGet df ColName.cclose = some cl →
      EquivRes
        ((calculate_stochastic_oscillator kw dw df).bind (calculate_macd s l g))
        ((calculate_macd s l g df).bind (calculate_stochastic_oscillator kw dw))) ∧
    (∀ kw dw bw k df lo hi cl, dfGet df ColName.clow = some lo →
      dfGet df ColName.chigh = some hi → dfGet df ColName.cclose = some cl →
      EquivRes
        ((calculate_stochastic_oscillator kw dw df).bind
          (calculate_bollinger_bands bw k))
        ((calculate_bollinger_bands bw k df).bind
          (calculate_stochastic_oscillator kw dw))) :=
  ⟨frame_sma, frame_ema, frame_rsi, frame_stoch, frame_macd, frame_boll,
    comm_sma_ema, comm_sma_rsi, comm_ema_rsi, comm_sma_macd, comm_ema_macd,
    comm_rsi_macd, comm_sma_boll, comm_ema_boll, comm_rsi_boll, comm_macd_boll,
    fun w kw dw df lo hi cl hl hh hc => comm_sma_stoch w kw dw df lo hi cl hl hh hc,
    fun w kw dw df lo hi cl hl hh hc => comm_ema_stoch w kw dw df lo hi cl hl hh hc,
    fun v kw dw df lo hi cl hl hh hc => comm_rsi_stoch v kw dw df lo hi cl hl hh hc,
    fun kw dw s l g df lo hi cl hl hh hc =>
      comm_stoch_macd kw dw s l g df lo hi cl hl hh hc,
    fun kw dw bw k df lo hi cl hl hh hc =>
      comm_stoch_boll kw dw bw k df lo hi cl hl hh hc⟩

/-- A small concrete table with one row and the three OHLC input columns the
operations read. -/
def sampleDF : DataFrame :=
  ⟨[0], [(ColName.clow, Col.fs [PFloat.num 1]),
    (ColName.chigh, Col.fs [PFloat.num 3]),
    (ColName.cclose, Col.fs [PFloat.num 2])]⟩

/-- Witness for C9: on a concrete one-row table, `calculate_sma` preserves
the index and the `Volume` lookup, and `calculate_sma`/the stochastic
oscillator commute. -/
theorem indicator_frame_and_order_independence_witness :
    ((dfSet sampleDF (ColName.csma 1)
        (Col.fs (smaSeries (Col.fs [PFloat.num 2]).toF 1))).index =
      sampleDF.index ∧
    dfGet (dfSet sampleDF (ColName.csma 1)
        (Col.fs (smaSeries (Col.fs [PFloat.num 2]).toF 1))) ColName.cvolume =
      dfGet sampleDF ColName.cvolume) ∧
    EquivRes
      ((calculate_sma 1 sampleDF).bind (calculate_stochastic_oscillator 1 1))
      ((calculate_stochastic_oscillator 1 1 sampleDF).bind (calculate_sma 1)) := by
  constructor
  · have h := indicator_frame_and_order_independence.1 1 sampleDF
      (dfSet sampleDF (ColName.csma 1)
        (Col.fs (smaSeries (Col.fs [PFloat.num 2]).toF 1))) rfl
    exact ⟨h.1, h.2 ColName.cvolume (by simp)⟩
  · exact indicator_frame_and_order_independence.2.2.2.2.2.2.2.2.2.2.2.2.2.2.2.2.1
      1 1 1 sampleDF _ _ _ rfl rfl rfl

/-- C10 (implicit): the columns `RSI`, `%K`, `%D`, `MACD`, `MACD_Signal`,
`Bollinger_Upper`, `Bollinger_Lower` carry no window parameter in their name,
so a second invocation of the same indicator with different parameters
overwrites the column with the values of the second call (the first result is
lost), whereas `SMA_{w}` / `EMA_{w}` are window-suffixed and a second call
with a different window adds a new column while the first survives. -/
theorem parameterless_columns_overwrite_suffixed_accumulate :
    (∀ w1 w2 df d1 d2 cl, dfGet df ColName.cclose = some cl →
      calculate_rsi w1 df = Except.ok d1 →
      calculate_rsi w2 d1 = Except.ok d2 →
      dfGet d2 ColName.crsi = some (Col.fs (rsiSeries cl.toF w2))) ∧
    (∀ k1 dw1 k2 dw2 df e1 e2 lo hi cl,
      dfGet df ColName.clow = some lo → dfGet df ColName.chigh = some hi →
      dfGet df ColName.cclose = some cl →
      calculate_stochastic_oscillator k1 dw1 df = Except.ok e1 →
      calculate_stochastic_oscillator k2 dw2 e1 = Except.ok e2 →
      dfGet e2 ColName.ckpct =
        some (Col.fs (pctKSeries hi.toF lo.toF cl.toF k2)) ∧
      dfGet e2 ColName.cdpct =
        some (Col.fs (pctDSeries (pctKSeries hi.toF lo.toF cl.toF k2) dw2))) ∧
    (∀ s1 l1 g1 s2 l2 g2 df e1 e2 cl, dfGet df ColName.cclose = some cl →
      calculate_macd s1 l1 g1 df = Except.ok e1 →
      calculate_macd s2 l2 g2 e1 = Except.ok e2 →
      dfGet e2 ColName.cmacd = some (Col.fs (macdSeries cl.toF s2 l2)) ∧
      dfGet e2 ColName.cmacdSig =
        some (Col.fs (ewmMeanF g2 (macdSeries cl.toF s2 l2)))) ∧
    (∀ w1 k1 w2 k2 df e1 e2 cl, dfGet df ColName.cclose = some cl →
      calculate_bollinger_bands w1 k1 df = Except.ok e1 →
      calculate_bollinger_bands w2 k2 e1 = Except.ok e2 →
      dfGet e2 ColName.cbollUp = some (Col.rs (bollUpperSeries cl.toF w2 k2)) ∧
      dfGet e2 ColName.cbollLo = some (Col.rs (bollLowerSeries cl.toF w2 k2))) ∧
    (∀ w1 w2 df d1 d2 cl, w1 ≠ w2 → dfGet df ColName.cclose = some cl →
      calculate_sma w1 df = Except.ok d1 →
      calculate_sma w2 d1 = Except.ok d2 →
      dfGet d2 (ColName.csma w1) = some (Col.fs (smaSeries cl.toF w1)) ∧
      dfGet d2 (ColName.csma w2) = some (Col.fs (smaSeries cl.toF w2))) ∧
    (∀ w1 w2 df d1 d2 cl, w1 ≠ w2 → dfGet df ColName.cclose = some cl →
      calculate_ema w1 df = Except.ok d1 →
      calculate_ema w2 d1 = Except.ok d2 →
      dfGet d2 (ColName.cema w1) = some (Col.fs (emaSeries cl.toF w1)) ∧
      dfGet d2 (ColName.cema w2) = some (Col.fs (emaSeries cl.toF w2))) := by
  refine ⟨?_, ?_, ?_, ?_, ?_, ?_⟩
  · intro w1 w2 df d1 d2 cl hc h1 h2
    rw [calculate_rsi_eq, hc] at h1
    cases h1
    rw [calculate_rsi_eq, dfGet_dfSet_ne _ _ _ _ (by simp), hc] at h2
    cases h2
    exact dfGet_dfSet_same _ _ _
  · intro k1 dw1 k2 dw2 df e1 e2 lo hi cl hl hh hc h1 h2
    rw [calculate_stoch_eq, hl, hh, hc] at h1
    cases h1
    rw [calculate_stoch_eq,
      dfGet_dfSet_ne _ _ _ _ (by simp), dfGet_dfSet_ne _ _ _ _ (by simp),
      dfGet_dfSet_ne _ _ _ _ (by simp), dfGet_dfSet_ne _ _ _ _ (by simp),
      dfGet_dfSet_ne _ _ _ _ (by simp), dfGet_dfSet_ne _ _ _ _ (by simp),
      hl, hh, hc] at h2
    cases h2
    refine ⟨?_, dfGet_dfSet_same _ _ _⟩
    rw [dfGet_dfSet_ne _ _ _ _ (by simp)]
    exact dfGet_dfSet_same _ _ _
  · intro s1 l1 g1 s2 l2 g2 df e1 e2 cl hc h1 h2
    rw [calculate_macd_eq, hc] at h1
    cases h1
    rw [calculate_macd_eq, dfGet_dfSet_ne _ _ _ _ (by simp),
      dfGet_dfSet_ne _ _ _ _ (by simp), hc] at h2
    cases h2
    refine ⟨?_, dfGet_dfSet_same _ _ _⟩
    rw [dfGet_dfSet_ne _ _ _ _ (by simp)]
    exact dfGet_dfSet_same _ _ _
  · intro w1 k1 w2 k2 df e1 e2 cl hc h1 h2
    rw [calculate_boll_eq, hc] at h1
    cases h1
    rw [calculate_boll_eq, dfGet_dfSet_ne _ _ _ _ (by simp),
      dfGet_dfSet_ne _ _ _ _ (by simp), hc] at h2
    cases h2
    refine ⟨?_, dfGet_dfSet_same _ _ _⟩
    rw [dfGet_dfSet_ne _ _ _ _ (by simp)]
    exact dfGet_dfSet_same _ _ _
  · intro w1 w2 df d1 d2 cl hne hc h1 h2
    rw [calculate_sma_eq, hc] at h1
    cases h1
    rw [calculate_sma_eq, dfGet_dfSet_ne _ _ _ _ (by simp), hc] at h2
    cases h2
    refine ⟨?_, dfGet_dfSet_same _ _ _⟩
    rw [dfGet_dfSet_ne _ _ _ _ (by simp [hne])]
    exact dfGet_dfSet_same _ _ _
  · intro w1 w2 df d1 d2 cl hne hc h1 h2
    rw [calculate_ema_eq, hc] at h1
    cases h1
    rw [calculate_ema_eq, dfGet_dfSet_ne _ _ _ _ (by simp), hc] at h2
    cases h2
    refine ⟨?_, dfGet_dfSet_same _ _ _⟩
    rw [dfGet_dfSet_ne _ _ _ _ (by simp [hne])]
    exact dfGet_dfSet_same _ _ _

/-- Witness for C10: on the concrete one-row table, two RSI calls with
windows `1` then `2` leave the `RSI` column holding the window-`2` series,
and two SMA calls with windows `1` then `2` leave both `SMA_1` and `SMA_2`
columns present with their own series. -/
theorem parameterless_columns_overwrite_witness :
    dfGet (dfSet (dfSet sampleDF ColName.crsi
        (Col.fs (rsiSeries (Col.fs [PFloat.num 2]).toF 1))) ColName.crsi
        (Col.fs (rsiSeries (Col.fs [PFloat.num 2]).toF 2))) ColName.crsi =
      some (Col.fs (rsiSeries (Col.fs [PFloat.num 2]).toF 2)) ∧
    (dfGet (dfSet (dfSet sampleDF (ColName.csma 1)
        (Col.fs (smaSeries (Col.fs [PFloat.num 2]).toF 1))) (ColName.csma 2)
        (Col.fs (smaSeries (Col.fs [PFloat.num 2]).toF 2))) (ColName.csma 1) =
      some (Col.fs (smaSeries (Col.fs [PFloat.num 2]).toF 1)) ∧
    dfGet (dfSet (dfSet sampleDF (ColName.csma 1)
        (Col.fs (smaSeries (Col.fs [PFloat.num 2]).toF 1))) (ColName.csma 2)
        (Col.fs (smaSeries (Col.fs [PFloat.num 2]).toF 2))) (ColName.csma 2) =
      some (Col.fs (smaSeries (Col.fs [PFloat.num 2]).toF 2))) := by
  constructor
  · exact parameterless_columns_overwrite_suffixed_accumulate.1 1 2 sampleDF
      _ _ _ rfl rfl rfl
  · exact parameterless_columns_overwrite_suffixed_accumulate.2.2.2.2.1 1 2
      sampleDF _ _ _ (by decide) rfl rfl rfl

/-- C8 counterexample: a table whose date index `[5, 3, 3]` is both
non-chronological and duplicated — invalid input by the claim — on which
`calculate_sma` raises nothing and happily returns an augmented table: the
code performs no validation of dates or emptiness, so the claimed
`InputError` is never produced exactly-when the input is invalid. -/
theorem sma_accepts_unsorted_duplicate_dates :
    ¬ List.Chain' (fun a b => a < b) ([5, 3, 3] : List ℚ) ∧
    ¬ List.Nodup ([5, 3, 3] : List ℚ) ∧
    calculate_sma 2
      ⟨[5, 3, 3], [(ColName.cclose,
        Col.fs [PFloat.num 1, PFloat.num 2, PFloat.num 3])]⟩ =
      Except.ok (dfSet ⟨[5, 3, 3], [(ColName.cclose,
        Col.fs [PFloat.num 1, PFloat.num 2, PFloat.num 3])]⟩ (ColName.csma 2)
      (Col.fs (smaSeries
        (Col.fs [PFloat.num 1, PFloat.num 2, PFloat.num 3]).toF 2))) := by
  refine ⟨?_, ?_, ?_⟩
  · intro h
    rcases List.chain'_cons.mp h with ⟨h1, _⟩
    norm_num at h1
  · intro h
    simp [List.nodup_cons] at h
  · rw [calculate_sma_eq]
    rfl

/-- C8 amended: the only failure any indicator computation produces is a
pandas `KeyError` for a missing required column — `Close` for SMA, EMA, RSI,
MACD and the Bollinger bands; `Low`, then `High`, then `Close` in evaluation
order for the stochastic oscillator.  When the required columns are present
the computation succeeds whatever the index (empty, non-chronological or
duplicated dates included), and no code path produces the specification's
`InputError`. -/
theorem indicator_failure_semantics (df : DataFrame) (w kw dw s l g : Nat)
    (k : ℚ) :
    (dfGet df ColName.cclose = none →
      calculate_sma w df = Except.error (PyErr.keyError ColName.cclose) ∧
      calculate_ema w df = Except.error (PyErr.keyError ColName.cclose) ∧
      calculate_rsi w df = Except.error (PyErr.keyError ColName.cclose) ∧
      calculate_macd s l g df = Except.error (PyErr.keyError ColName.cclose) ∧
      calculate_bollinger_bands w k df =
        Except.error (PyErr.keyError ColName.cclose)) ∧
    (∀ cl, dfGet df ColName.cclose = some cl →
      (∃ d, calculate_sma w df = Except.ok d) ∧
      (∃ d, calculate_ema w df = Except.ok d) ∧
      (∃ d, calculate_rsi w df = Except.ok d) ∧
      (∃ d, calculate_macd s l g df = Except.ok d) ∧
      (∃ d, calculate_bollinger_bands w k df = Except.ok d)) ∧
    (dfGet df ColName.clow = none →
      calculate_stochastic_oscillator kw dw df =
        Except.error (PyErr.keyError ColName.clow)) ∧
    (∀ lo, dfGet df ColName.clow = some lo → dfGet df ColName.chigh = none →
      calculate_stochastic_oscillator kw dw df =
        Except.error (PyErr.keyError ColName.chigh)) ∧
    (∀ lo hi, dfGet df ColName.clow = some lo →
      dfGet df ColName.chigh = some hi → dfGet df ColName.cclose = none →
      calculate_stochastic_oscillator kw dw df =
        Except.error (PyErr.keyError ColName.cclose)) ∧
    (∀ lo hi cl, dfGet df ColName.clow = some lo →
      dfGet df ColName.chigh = some hi → dfGet df ColName.cclose = some cl →
      ∃ d, calculate_stochastic_oscillator kw dw df = Except.ok d) ∧
    (∀ e, calculate_sma w df ≠ Except.error (PyErr.inputError e) ∧
      calculate_ema w df ≠ Except.error (PyErr.inputError e) ∧
      calculate_rsi w df ≠ Except.error (PyErr.inputError e) ∧
      calculate_stochastic_oscillator kw dw df ≠
        Except.error (PyErr.inputError e) ∧
      calculate_macd s l g df ≠ Except.error (PyErr.inputError e) ∧
      calculate_bollinger_bands w k df ≠
        Except.error (PyErr.inputError e)) := by
  refine ⟨?_, ?_, ?_, ?_, ?_, ?_, ?_⟩
  · intro h
    rw [calculate_sma_eq, calculate_ema_eq, calculate_rsi_eq,
      calculate_macd_eq, calculate_boll_eq, h]
    exact ⟨rfl, rfl, rfl, rfl, rfl⟩
  · intro cl h
    rw [calculate_sma_eq, calculate_ema_eq, calculate_rsi_eq,
      calculate_macd_eq, calculate_boll_eq, h]
    exact ⟨⟨_, rfl⟩, ⟨_, rfl⟩, ⟨_, rfl⟩, ⟨_, rfl⟩, ⟨_, rfl⟩⟩
  · intro h
    rw [calculate_stoch_eq, h]
  · intro lo hl hh
    rw [calculate_stoch_eq, hl, hh]
  · intro lo hi hl hh hc
    rw [calculate_stoch_eq, hl, hh, hc]
  · intro lo hi cl hl hh hc
    rw [calculate_stoch_eq, hl, hh, hc]
    exact ⟨_, rfl⟩
  · intro e
    refine ⟨?_, ?_, ?_, ?_, ?_, ?_⟩
    · rw [calculate_sma_eq]
      cases h : dfGet df ColName.cclose <;> simp
    · rw [calculate_ema_eq]
      cases h : dfGet df ColName.cclose <;> simp
    · rw [calculate_rsi_eq]
      cases h : dfGet df ColName.cclose <;> simp
    · rw [calculate_stoch_eq]
      cases hl : dfGet df ColName.clow <;>
        cases hh : dfGet df ColName.chigh <;>
        cases hc : dfGet df ColName.cclose <;> simp
    · rw [calculate_macd_eq]
      cases h : dfGet df ColName.cclose <;> simp
    · rw [calculate_boll_eq]
      cases h : dfGet df ColName.cclose <;> simp

/-- Witness for the amended C8: the empty table makes every close-reading
computation fail with `KeyError Close`, and the concrete sample table makes
`calculate_sma` succeed. -/
theorem indicator_failure_semantics_witness :
    calculate_sma 1 ⟨[], []⟩ =
      Except.error (PyErr.keyError ColName.cclose) ∧
    (∃ d, calculate_sma 1 sampleDF = Except.ok d) ∧
    calculate_stochastic_oscillator 1 1 ⟨[], []⟩ =
      Except.error (PyErr.keyError ColName.clow) := by
  refine ⟨?_, ?_, ?_⟩
  · exact ((indicator_failure_semantics ⟨[], []⟩ 1 1 1 1 1 1 0).1 rfl).1
  · exact ((indicator_failure_semantics sampleDF 1 1 1 1 1 1 0).2.1
      (Col.fs [PFloat.num 2]) rfl).1
  · exact (indicator_failure_semantics ⟨[], []⟩ 1 1 1 1 1 1 0).2.2.1 rfl
